import Mathlib

/-!
Verification development for the shifts-etl repository.

The Python sources are shallowly embedded:

* `src/etl/app/shift_data_processor.py` (the implementation wired to the
  FastAPI trigger layer in `src/etl/app/main.py`) is embedded in the `App`
  namespace.
* `src/etl/shift_data_processor.py` (the standalone top-level variant) is
  embedded in the `Root` namespace where its behaviour differs.

Python floats are modelled as rationals, `datetime` values by their epoch
seconds (a rational), `None`/missing data by `Option`, and raised
exceptions by `Except String`.  Database effects are modelled by explicit
state passing over record lists.
-/

set_option autoImplicit false
set_option linter.unusedVariables false

/-- A scalar Python value as it occurs in the upstream JSON and in the
transformed records: ints, bools (a `bool` is an `int` subclass in Python),
floats (modelled as rationals), strings, `None`, and `datetime` values
(modelled by their epoch seconds as a rational). -/
inductive PyVal where
  | int (n : ℤ)
  | bool (b : Bool)
  | float (q : ℚ)
  | str (s : String)
  | pynone
  | dt (secs : ℚ)
  deriving DecidableEq, Repr

/-- A Python `dict` with string keys, modelled as its insertion-ordered
entry list (Python dicts preserve insertion order; keys are unique). -/
abbrev Dict := List (String × PyVal)

/-- `d[k]` on a Python dict: the value at `k`, or a raised `KeyError`. -/
def getItem (d : Dict) (k : String) : Except String PyVal :=
  match d.lookup k with
  | some v => Except.ok v
  | none => Except.error ("KeyError: " ++ k)

/-- `d.get(k)` on a Python dict: the value at `k`, or `None`. -/
def dictGet (d : Dict) (k : String) : PyVal :=
  match d.lookup k with
  | some v => v
  | none => PyVal.pynone

/-- `d[k] = v` on a Python dict: updating an existing key keeps its
position, a new key is appended at the end. -/
def dictSet (d : Dict) (k : String) (v : PyVal) : Dict :=
  if d.any (fun p => p.1 = k) then
    d.map (fun p => if p.1 = k then (k, v) else p)
  else
    d ++ [(k, v)]

/-- A Python dict comprehension / dict literal built from a sequence of
key-value pairs: later pairs with an equal key overwrite earlier ones. -/
def dictOfPairs (pairs : List (String × PyVal)) : Dict :=
  pairs.foldl (fun d p => dictSet d p.1 p.2) []

/-- `column_mapping.get(key, key)`: look up `key` in a string-to-string
mapping, defaulting to `key` itself. -/
def mappingGetD (m : List (String × String)) (k : String) : String :=
  match m.lookup k with
  | some v => v
  | none => k

/-- `isinstance(v, int)` in Python: true for ints and bools
(`bool` is a subclass of `int`). -/
def isIntInstance : PyVal → Bool
  | .int _ => true
  | .bool _ => true
  | _ => false

/-- The integer value of an int-like Python value (`True == 1`,
`False == 0`); `0` on other values (never used on them). -/
def pyIntValue : PyVal → ℤ
  | .int n => n
  | .bool b => if b then 1 else 0
  | _ => 0

/-- A Python value usable as a number in float arithmetic
(`int`, `bool`, `float`); `none` for values that would raise a
`TypeError` when summed. -/
def pyNum : PyVal → Option ℚ
  | .int n => some (n : ℚ)
  | .bool b => some (if b then 1 else 0)
  | .float q => some q
  | _ => none

/-- Round-half-to-even on a rational, as Python's `round` ties-to-even. -/
def roundHalfEven (q : ℚ) : ℤ :=
  if q - (⌊q⌋ : ℚ) < 1/2 then ⌊q⌋
  else if (1:ℚ)/2 < q - (⌊q⌋ : ℚ) then ⌊q⌋ + 1
  else if Even ⌊q⌋ then ⌊q⌋ else ⌊q⌋ + 1

/-- Python's `round(x, 4)`: round to four decimal places, ties to even. -/
def pyRound4 (q : ℚ) : ℚ := (roundHalfEven (q * 10000) : ℚ) / 10000

namespace App

/-- `parse_timestamp` from `src/etl/app/shift_data_processor.py`:
returns `datetime.fromtimestamp(timestamp // 1000)` when the value is an
int instance strictly greater than zero, else `None`.  The `datetime`
result is modelled by its epoch seconds; `//` is Python floor division. -/
def parse_timestamp (timestamp : PyVal) : Option ℚ :=
  if isIntInstance timestamp ∧ 0 < pyIntValue timestamp then
    some (((pyIntValue timestamp).fdiv 1000 : ℤ) : ℚ)
  else
    none

end App

namespace Root

/-- `parse_timestamp` from `src/etl/shift_data_processor.py`:
identical to the `App` version except that it divides by `1000` with
Python true division `/`, preserving the millisecond fraction. -/
def parse_timestamp (timestamp : PyVal) : Option ℚ :=
  if isIntInstance timestamp ∧ 0 < pyIntValue timestamp then
    some ((pyIntValue timestamp : ℚ) / 1000)
  else
    none

end Root

/-- One shift object of a page's `results` sequence, per the fixed record
shape of the upstream API (§6 of the design): `id`, `date`, optional
`start`/`finish` (an absent key and an explicit `None` both appear as
`pynone`, matching `result.get(...)`), and the three nested child
sequences, kept as raw dicts. -/
structure ShiftResult where
  id : PyVal
  date : PyVal
  start : PyVal
  finish : PyVal
  breaks : List Dict
  allowances : List Dict
  award_interpretations : List Dict
  deriving DecidableEq

/-- The `links` object of a page envelope: an optional `next` reference
and an optional `base` URL. -/
structure LinksData where
  next : Option String
  base : Option String
  deriving DecidableEq

/-- One page body: a `results` sequence of shift objects and a `links`
envelope. -/
structure PageData where
  results : List ShiftResult
  links : LinksData
  deriving DecidableEq

/-- Output row of `process_shifts`: the transformed shift record with the
keys `shift_id`, `shift_date`, `shift_cost`, `shift_start`,
`shift_finish`. -/
structure ShiftRow where
  shift_id : PyVal
  shift_date : PyVal
  shift_cost : ℚ
  shift_start : Option ℚ
  shift_finish : Option ℚ
  deriving DecidableEq

/-- Output row of `process_breaks`: the transformed break record with the
keys `break_id`, `shift_id`, `break_start`, `break_finish`, `is_paid`. -/
structure BreakRow where
  break_id : PyVal
  shift_id : PyVal
  break_start : Option ℚ
  break_finish : Option ℚ
  is_paid : PyVal
  deriving DecidableEq

namespace App

/-- `map_dict_keys`: `{column_mapping.get(key, key): value for key, value
in record.items()}` applied to each record of `data`. -/
def map_dict_keys (data : List Dict) (column_mapping : List (String × String)) :
    List Dict :=
  data.map (fun record =>
    dictOfPairs (record.map (fun p => (mappingGetD column_mapping p.1, p.2))))

/-- `process_nested_records`: flattens the nested child records,
building `{**record, parent_key: result['id']}` for each child of each
result.  `recordsOf` selects `result[record_key]`. -/
def process_nested_records (results : List ShiftResult)
    (recordsOf : ShiftResult → List Dict) (parent_key : String) : List Dict :=
  results.flatMap (fun result =>
    (recordsOf result).map (fun record =>
      dictOfPairs (record ++ [(parent_key, result.id)])))

/-- `sum(allowance['cost'] for allowance in ...)`: sums the `'cost'`
entries left to right; a missing key raises `KeyError`, a non-numeric
value raises `TypeError`. -/
def sumCosts : List Dict → Except String ℚ
  | [] => Except.ok 0
  | d :: ds => do
      let v ← getItem d "cost"
      match pyNum v with
      | some q =>
          let rest ← sumCosts ds
          Except.ok (q + rest)
      | none => Except.error "TypeError: unsupported operand type"

/-- `process_shifts` from `src/etl/app/shift_data_processor.py`: one
transformed row per result, with `shift_cost` the 4-decimal rounding of
the sum of the shift's allowance costs plus its award-interpretation
costs. -/
def process_shifts : List ShiftResult → Except String (List ShiftRow)
  | [] => Except.ok []
  | r :: rs => do
      let sa ← sumCosts r.allowances
      let sw ← sumCosts r.award_interpretations
      let rest ← process_shifts rs
      Except.ok ({ shift_id := r.id, shift_date := r.date,
                   shift_cost := pyRound4 (sa + sw),
                   shift_start := parse_timestamp r.start,
                   shift_finish := parse_timestamp r.finish } :: rest)

/-- The inner comprehension of `process_breaks` for one result: one
`BreakRow` per break record of the shift with id `shiftId`. -/
def processBreaksOf (shiftId : PyVal) : List Dict → Except String (List BreakRow)
  | [] => Except.ok []
  | b :: bs => do
      let bid ← getItem b "id"
      let paid ← getItem b "paid"
      let rest ← processBreaksOf shiftId bs
      Except.ok ({ break_id := bid, shift_id := shiftId,
                   break_start := parse_timestamp (dictGet b "start"),
                   break_finish := parse_timestamp (dictGet b "finish"),
                   is_paid := paid } :: rest)

/-- `process_breaks`: flattens all break records of all results. -/
def process_breaks : List ShiftResult → Except String (List BreakRow)
  | [] => Except.ok []
  | r :: rs => do
      let bs ← processBreaksOf r.id r.breaks
      let rest ← process_breaks rs
      Except.ok (bs ++ rest)

/-- The column mapping `process_allowances` passes to `map_dict_keys`. -/
def allowanceMapping : List (String × String) :=
  [("id", "allowance_id"), ("value", "allowance_value"), ("cost", "allowance_cost")]

/-- The column mapping `process_award_interpretations` passes to
`map_dict_keys`. -/
def awardMapping : List (String × String) :=
  [("id", "award_id"), ("date", "award_date"), ("units", "award_units"),
   ("cost", "award_cost")]

/-- `process_allowances`: flatten the allowance children and rename their
keys. -/
def process_allowances (results : List ShiftResult) : List Dict :=
  map_dict_keys (process_nested_records results (fun r => r.allowances) "shift_id")
    allowanceMapping

/-- `process_award_interpretations`: flatten the award-interpretation
children and rename their keys. -/
def process_award_interpretations (results : List ShiftResult) : List Dict :=
  map_dict_keys
    (process_nested_records results (fun r => r.award_interpretations) "shift_id")
    awardMapping

/-- The four record-set fields held on the `ShiftDataProcessor` object
(`self.shifts`, `self.breaks`, `self.allowances`,
`self.award_interpretations`). -/
structure ProcState where
  shifts : List ShiftRow
  breaks : List BreakRow
  allowances : List Dict
  award_interpretations : List Dict
  deriving DecidableEq

/-- `process_json`: reads `json_data['results']` and replaces all four
record-set fields with the transforms of the current page.  The previous
state `st` is not read. -/
def process_json (st : ProcState) (jd : PageData) : Except String ProcState := do
  let results := jd.results
  let sh ← process_shifts results
  let br ← process_breaks results
  Except.ok { shifts := sh, breaks := br,
              allowances := process_allowances results,
              award_interpretations := process_award_interpretations results }

/-- `get_next_url` from `src/etl/app/shift_data_processor.py`: the
`next` reference of the page's `links`, resolved against the processor's
`base_url` with `urllib.parse.urljoin` (taken as an environment
parameter), or `None` when absent or empty (Python truthiness). -/
def get_next_url (urljoin : String → String → String) (base_url : String)
    (jd : PageData) : Option String :=
  match jd.links.next with
  | some n => if n = "" then none else some (urljoin base_url n)
  | none => none

/-- A row of the `allowances` table, in the column order
`['allowance_id', 'shift_id', 'allowance_value', 'allowance_cost']` that
`process_and_insert_data` passes to `insert_data`. -/
structure AllowanceRow where
  allowance_id : PyVal
  shift_id : PyVal
  allowance_value : PyVal
  allowance_cost : PyVal
  deriving DecidableEq

/-- A row of the `award_interpretations` table, in the column order
`['award_id', 'shift_id', 'award_date', 'award_units', 'award_cost']`. -/
structure AwardRow where
  award_id : PyVal
  shift_id : PyVal
  award_date : PyVal
  award_units : PyVal
  award_cost : PyVal
  deriving DecidableEq

/-- The committed contents of the four ingestion tables. -/
structure Database where
  shifts : List ShiftRow
  breaks : List BreakRow
  allowances : List AllowanceRow
  award_interpretations : List AwardRow
  deriving DecidableEq

/-- `tuple(record[col] for col in columns)` for the allowances columns:
raises `KeyError` when a column is missing from the record. -/
def allowanceTuple (record : Dict) : Except String AllowanceRow := do
  let aid ← getItem record "allowance_id"
  let sid ← getItem record "shift_id"
  let av ← getItem record "allowance_value"
  let ac ← getItem record "allowance_cost"
  Except.ok ⟨aid, sid, av, ac⟩

/-- `tuple(record[col] for col in columns)` for the award-interpretation
columns. -/
def awardTuple (record : Dict) : Except String AwardRow := do
  let aid ← getItem record "award_id"
  let sid ← getItem record "shift_id"
  let ad ← getItem record "award_date"
  let au ← getItem record "award_units"
  let ac ← getItem record "award_cost"
  Except.ok ⟨aid, sid, ad, au, ac⟩

/-- `data_tuples = [tuple(record[col] for col in columns) for record in
data]`: the whole comprehension is evaluated before `execute_values`, so
a missing column raises before any row of this table is written. -/
def dataTuples {α : Type} (f : Dict → Except String α) :
    List Dict → Except String (List α)
  | [] => Except.ok []
  | d :: ds => do
      let t ← f d
      let rest ← dataTuples f ds
      Except.ok (t :: rest)

/-- Modelled from the spec: the pre-provisioned DDL (`initdb.sql`,
referenced by the tests but not under `src/`) is taken, per §3 of the
design, to declare each table's id column as its primary key (break ids
are a hard error when duplicated across the run) and each child table's
`shift_id` as a foreign key to `shifts`.  `execute_values` sends the
batch to PostgreSQL, which checks each row against the table contents
plus the rows of the batch already processed; the first violation aborts
the statement.  On success the rows are appended to the (uncommitted)
table. -/
def insertRows {α : Type} (pk : α → PyVal) (fkOk : α → Bool) :
    List α → List α → Except String (List α)
  | table, [] => Except.ok table
  | table, row :: rest =>
      if table.any (fun r => pk r == pk row) then
        Except.error "duplicate key value violates unique constraint"
      else if ¬ fkOk row then
        Except.error "insert violates foreign key constraint"
      else
        insertRows pk fkOk (table ++ [row]) rest

/-- `process_and_insert_data` from `src/etl/app/shift_data_processor.py`:
one connection with `autocommit = False`, `process_json`, then the four
`insert_data` calls in the order shifts, breaks, allowances,
award_interpretations, all within the same transaction.  An error
anywhere short-circuits (the transaction is rolled back by the caller
`runPage`); `Except.ok` is the commit. -/
def process_and_insert_data (st : ProcState) (db : Database) (jd : PageData) :
    Except String Database := do
  let st' ← process_json st jd
  let shifts' ← insertRows (fun r => r.shift_id) (fun _ => true)
    db.shifts st'.shifts
  let breaks' ← insertRows (fun r => r.break_id)
    (fun b => shifts'.any (fun s => s.shift_id == b.shift_id))
    db.breaks st'.breaks
  let alRows ← dataTuples allowanceTuple st'.allowances
  let allowances' ← insertRows (fun r => r.allowance_id)
    (fun a => shifts'.any (fun s => s.shift_id == a.shift_id))
    db.allowances alRows
  let awRows ← dataTuples awardTuple st'.award_interpretations
  let awards' ← insertRows (fun r => r.award_id)
    (fun a => shifts'.any (fun s => s.shift_id == a.shift_id))
    db.award_interpretations awRows
  Except.ok { shifts := shifts', breaks := breaks',
              allowances := allowances', award_interpretations := awards' }

/-- The `try`/`except` wrapper of `process_and_insert_data`: on success
the transaction is committed and the new table contents are visible; on
any exception `conn.rollback()` restores the pre-page contents and the
exception is re-raised (returned as `some` message). -/
def runPage (st : ProcState) (db : Database) (jd : PageData) :
    Database × Option String :=
  match process_and_insert_data st db jd with
  | Except.ok db' => (db', none)
  | Except.error e => (db, some e)

/-- The environment of a run: `requests.get`-plus-JSON-parse as an
abstract fetch returning `none` on any network, non-2xx or parse failure
(`fetch_data`), the external `urllib.parse.urljoin`, and the processor's
`base_url`. -/
structure Env where
  fetch : String → Option PageData
  urljoin : String → String → String
  base_url : String

/-- How the `while url:` loop of `process_all_pages` ended. -/
inductive LoopStatus where
  | done
  | failed (msg : String)
  | outOfFuel
  deriving DecidableEq

/-- The observable outcome of the loop: committed tables, number of
`fetch_data` calls performed, and how it ended. -/
structure LoopResult where
  db : Database
  fetches : Nat
  status : LoopStatus
  deriving DecidableEq

/-- The `while url:` loop of `process_all_pages`: fetch the page, abort
with `ValueError` when the fetch fails, process and insert it (aborting
on any exception), then follow `get_next_url` until it is absent.  The
loop is given explicit fuel because the upstream `next` chain is not
independently bounded (§4.4 of the design notes a cyclic chain would not
terminate); `outOfFuel` marks runs whose chain is longer than the fuel. -/
def loopPages (env : Env) (st : ProcState) :
    Nat → String → Database → Nat → LoopResult
  | 0, _, db, n => ⟨db, n, LoopStatus.outOfFuel⟩
  | fuel + 1, url, db, n =>
      if url = "" then ⟨db, n, LoopStatus.done⟩
      else
        match env.fetch url with
        | none => ⟨db, n + 1, LoopStatus.failed "Failed to fetch data for the page."⟩
        | some jd =>
            match process_and_insert_data st db jd with
            | Except.error e => ⟨db, n + 1, LoopStatus.failed e⟩
            | Except.ok db' =>
                match get_next_url env.urljoin env.base_url jd with
                | some u => loopPages env st fuel u db' (n + 1)
                | none => ⟨db', n + 1, LoopStatus.done⟩

/-- Outcome of a whole run as reported to the trigger layer: normal
return, a propagated exception, or fuel exhaustion of the model. -/
inductive Outcome where
  | ok
  | err (msg : String)
  | outOfFuel
  deriving DecidableEq

/-- Result of `process_all_pages`: final tables, number of `fetch_data`
calls, number of `compute_kpis` invocations, and the reported outcome. -/
structure RunResult where
  db : Database
  fetches : Nat
  kpiRuns : Nat
  outcome : Outcome
  deriving DecidableEq

/-- `process_all_pages` from `src/etl/app/shift_data_processor.py`: run
the pagination loop from `api_url`; every exception inside the loop is
logged and re-raised, terminating the run without reaching
`compute_kpis`; after a normal loop exit `compute_kpis` is invoked
exactly once before the run returns. -/
def process_all_pages (env : Env) (st : ProcState) (fuel : Nat)
    (api_url : String) (db : Database) : RunResult :=
  match loopPages env st fuel api_url db 0 with
  | ⟨db', n, LoopStatus.done⟩ => ⟨db', n, 1, Outcome.ok⟩
  | ⟨db', n, LoopStatus.failed e⟩ => ⟨db', n, 0, Outcome.err e⟩
  | ⟨db', n, LoopStatus.outOfFuel⟩ => ⟨db', n, 0, Outcome.outOfFuel⟩

end App

/-- A row of the `shifts` table as the KPI query sees it.  Modelled from
the spec: the pre-provisioned DDL (not under `src/`) types `shift_date`
as a calendar `DATE` (here an integer day number, so that `DATE`
ordering and `CURRENT_DATE - INTERVAL '14 days'` are integer ordering
and subtraction), the timestamps as nullable timestamps (epoch-second
rationals) and `shift_cost` as a numeric. -/
structure SqlShift where
  shift_id : String
  shift_date : ℤ
  shift_start : Option ℚ
  shift_finish : Option ℚ
  shift_cost : ℚ
  deriving DecidableEq

/-- A row of the `breaks` table as the KPI query sees it. -/
structure SqlBreak where
  break_id : String
  shift_id : String
  break_start : Option ℚ
  break_finish : Option ℚ
  is_paid : Bool
  deriving DecidableEq

/-- A row of the `allowances` table as the KPI query sees it. -/
structure SqlAllowance where
  allowance_id : String
  shift_id : String
  allowance_value : ℚ
  allowance_cost : ℚ
  deriving DecidableEq

/-- A row of the `award_interpretations` table as the KPI query sees it. -/
structure SqlAward where
  award_id : String
  shift_id : String
  award_date : ℤ
  award_units : ℚ
  award_cost : ℚ
  deriving DecidableEq

/-- A row of the `kpis` fact table: `(kpi_name, kpi_date, kpi_value)`;
the value is `none` when the inserted scalar subquery produced SQL
`NULL`. -/
structure KpiRow where
  kpi_name : String
  kpi_date : ℤ
  kpi_value : Option ℚ
  deriving DecidableEq

/-- The persisted store as seen by the KPI query and by Data Reset. -/
structure SqlDb where
  shifts : List SqlShift
  breaks : List SqlBreak
  allowances : List SqlAllowance
  award_interpretations : List SqlAward
  kpis : List KpiRow
  deriving DecidableEq

/-- SQL `AVG` over non-null numeric values: `NULL` on the empty bag. -/
def sqlAvg (xs : List ℚ) : Option ℚ :=
  if xs.isEmpty then none else some (xs.sum / (xs.length : ℚ))

/-- SQL `MAX` over non-null numeric values: `NULL` on the empty bag. -/
def sqlMax : List ℚ → Option ℚ
  | [] => none
  | x :: xs =>
      match sqlMax xs with
      | none => some x
      | some m => some (max x m)

/-- SQL `MIN` over non-null numeric values: `NULL` on the empty bag. -/
def sqlMin : List ℚ → Option ℚ
  | [] => none
  | x :: xs =>
      match sqlMin xs with
      | none => some x
      | some m => some (min x m)

/-- The maximum of a list of naturals (`ORDER BY cnt DESC LIMIT 1` on a
scalar subquery): `none` when the subquery yields no row. -/
def maxOf : List ℕ → Option ℕ
  | [] => none
  | x :: xs =>
      match maxOf xs with
      | none => some x
      | some m => some (max x m)

namespace App

/-- Subquery 1, `mean_break_length_in_minutes`:
`COALESCE(EXTRACT(EPOCH FROM AVG(break_finish - break_start)) / 60, 0)`.
A difference with a `NULL` operand is `NULL` and is skipped by `AVG`. -/
def kpi_mean_break_length (db : SqlDb) : ℚ :=
  let diffs := db.breaks.filterMap (fun b =>
    match b.break_start, b.break_finish with
    | some s, some f => some (f - s)
    | _, _ => none)
  ((sqlAvg diffs).map (fun a => a / 60)).getD 0

/-- Subquery 2, `mean_shift_cost`: `COALESCE(AVG(shift_cost), 0)`. -/
def kpi_mean_shift_cost (db : SqlDb) : ℚ :=
  (sqlAvg (db.shifts.map (fun s => s.shift_cost))).getD 0

/-- Subquery 3, `max_allowance_cost_14d`: `COALESCE(MAX(allowance_cost), 0)`
over `allowances INNER JOIN shifts ON shift_id` restricted to
`shift_date >= CURRENT_DATE - INTERVAL '14 days'`. -/
def kpi_max_allowance_cost_14d (today : ℤ) (db : SqlDb) : ℚ :=
  let joined := db.allowances.flatMap (fun a =>
    (db.shifts.filter (fun s => s.shift_id == a.shift_id)).map (fun s => (a, s)))
  (sqlMax ((joined.filter (fun p => decide (today - 14 ≤ p.2.shift_date))).map
    (fun p => p.1.allowance_cost))).getD 0

/-- `shifts LEFT JOIN breaks ON shifts.shift_id = breaks.shift_id`: each
shift paired with each of its breaks, or with `NULL` when it has none. -/
def sqlLeftJoin (db : SqlDb) : List (SqlShift × Option SqlBreak) :=
  db.shifts.flatMap (fun s =>
    match db.breaks.filter (fun b => b.shift_id == s.shift_id) with
    | [] => [(s, none)]
    | bs => bs.map (fun b => (s, some b)))

/-- The window expression
`SUM(CASE WHEN break_id IS NULL THEN 0 ELSE 1 END) OVER (ORDER BY shift_date)`
of the `grps` CTE.  The default frame is
`RANGE BETWEEN UNBOUNDED PRECEDING AND CURRENT ROW`, which sums over
every row whose `shift_date` is at most the current row's (peers with an
equal date included). -/
def grpOf (rows : List (SqlShift × Option SqlBreak))
    (r : SqlShift × Option SqlBreak) : ℕ :=
  (rows.filter (fun q => q.2.isSome && decide (q.1.shift_date ≤ r.1.shift_date))).length

/-- Subquery 4, `max_break_free_shift_period_in_days`: group the
left-join rows by their running break count, take
`COALESCE(COUNT(*) - CASE WHEN grp = 0 THEN 0 ELSE 1 END, 0)` per group,
and return the largest (`ORDER BY cnt DESC LIMIT 1`).  With no rows the
scalar subquery yields no row, i.e. SQL `NULL` — the `COALESCE` sits
inside the grouped select, not around the subquery. -/
def kpi_max_break_free (db : SqlDb) : Option ℚ :=
  let rows := sqlLeftJoin db
  let grps := rows.map (grpOf rows)
  let cnts := grps.dedup.map (fun g => grps.count g - (if g = 0 then 0 else 1))
  (maxOf cnts).map (fun n => (n : ℚ))

/-- Subquery 5, `min_shift_length_in_hours`:
`COALESCE(MIN(EXTRACT(EPOCH FROM (shift_finish - shift_start)) / 3600), 0)`;
rows with a `NULL` start or finish are skipped by `MIN`. -/
def kpi_min_shift_length (db : SqlDb) : ℚ :=
  let lens := db.shifts.filterMap (fun s =>
    match s.shift_start, s.shift_finish with
    | some a, some b => some ((b - a) / 3600)
    | _, _ => none)
  (sqlMin lens).getD 0

/-- Subquery 6, `total_number_of_paid_breaks`:
`COALESCE(COUNT(*), 0)` over breaks with `is_paid = true`. -/
def kpi_total_paid_breaks (db : SqlDb) : ℚ :=
  ((db.breaks.filter (fun b => b.is_paid)).length : ℚ)

/-- `compute_kpis` from `src/etl/app/shift_data_processor.py`: the six
rows inserted into `kpis` by the single `INSERT ... VALUES` statement,
in statement order, all dated `CURRENT_DATE`. -/
def compute_kpis (today : ℤ) (db : SqlDb) : List KpiRow :=
  [⟨"mean_break_length_in_minutes", today, some (kpi_mean_break_length db)⟩,
   ⟨"mean_shift_cost", today, some (kpi_mean_shift_cost db)⟩,
   ⟨"max_allowance_cost_14d", today, some (kpi_max_allowance_cost_14d today db)⟩,
   ⟨"max_break_free_shift_period_in_days", today, kpi_max_break_free db⟩,
   ⟨"min_shift_length_in_hours", today, some (kpi_min_shift_length db)⟩,
   ⟨"total_number_of_paid_breaks", today, some (kpi_total_paid_breaks db)⟩]

/-- `clear_data` from `src/etl/app/shift_data_processor.py`:
`DELETE FROM shifts CASCADE; DELETE FROM kpis;` committed as one
transaction.  (`CASCADE` parses as a table alias in PostgreSQL's
`DELETE`.)  Modelled from the spec: the child tables' foreign keys are
declared `ON DELETE CASCADE` in the pre-provisioned DDL (not under
`src/`), so every child row referencing a deleted shift is deleted with
it — a child row whose `shift_id` matches no shift would survive, but
the foreign-key constraint makes such a row impossible. -/
def clear_data (db : SqlDb) : SqlDb :=
  { shifts := [],
    breaks := db.breaks.filter
      (fun b => !(db.shifts.any (fun s => s.shift_id == b.shift_id))),
    allowances := db.allowances.filter
      (fun a => !(db.shifts.any (fun s => s.shift_id == a.shift_id))),
    award_interpretations := db.award_interpretations.filter
      (fun a => !(db.shifts.any (fun s => s.shift_id == a.shift_id))),
    kpis := [] }

end App

/-- Whether a shift has an associated break (some row of `breaks` carries
its id). -/
def hasBreakIn (breaks : List SqlBreak) (s : SqlShift) : Bool :=
  breaks.any (fun b => b.shift_id == s.shift_id)

/-- The shifts arranged by date ordering (stable insertion sort). -/
def sortByDate (shifts : List SqlShift) : List SqlShift :=
  shifts.insertionSort (fun a b => a.shift_date ≤ b.shift_date)

instance : IsTotal SqlShift (fun a b => a.shift_date ≤ b.shift_date) :=
  ⟨fun a b => Int.le_total a.shift_date b.shift_date⟩

instance : IsTrans SqlShift (fun a b => a.shift_date ≤ b.shift_date) :=
  ⟨fun _ _ _ h1 h2 => le_trans h1 h2⟩

/-- The number of leading `false` entries of a flag list. -/
def leadFalses : List Bool → ℕ
  | false :: l => leadFalses l + 1
  | _ => 0

/-- The length of the longest run of consecutive `false` entries: a run
starting at the head is `leadFalses` long, and every other run lives in
the tail. -/
def longestFalseRun : List Bool → ℕ
  | [] => 0
  | true :: l => longestFalseRun l
  | false :: l => max (leadFalses l + 1) (longestFalseRun l)

/-- The quantity named by the claim for `max_break_free_shift_period_in_days`:
the length of the longest run of consecutive (by date ordering) shifts
having no associated break. -/
def claimedMaxBreakFree (db : SqlDb) : ℕ :=
  longestFalseRun ((sortByDate db.shifts).map (fun s => hasBreakIn db.breaks s))

/-- The date and has-a-break flag of each shift row, the only data the
`max_break_free` subquery depends on once each shift has at most one
break. -/
def shiftFlags (db : SqlDb) : List (ℤ × Bool) :=
  db.shifts.map (fun s => (s.shift_date, hasBreakIn db.breaks s))

/-- `grpOf` restated on date/flag pairs: the running break count of a
row is the number of break-bearing rows with a date at most its own. -/
def grpOfP (ps : List (ℤ × Bool)) (d : ℤ) : ℕ :=
  (ps.filter (fun q => q.2 && decide (q.1 ≤ d))).length

/-- The `max_break_free` computation on date/flag pairs. -/
def sqlValP (ps : List (ℤ × Bool)) : Option ℕ :=
  let grps := ps.map (fun p => grpOfP ps p.1)
  maxOf (grps.dedup.map (fun g => grps.count g - (if g = 0 then 0 else 1)))

/-- The running true-counts of a flag list: entry `i` is the number of
`true` entries among the first `i + 1` flags. -/
def prefCounts : List Bool → List ℕ
  | [] => []
  | b :: l => (if b then 1 else 0) :: (prefCounts l).map (fun x => x + if b then 1 else 0)

/-- The `max_break_free` computation on a flag list whose rows are
already in strictly increasing date order: the running sums are the
prefix true-counts. -/
def sqlValB (bs : List Bool) : Option ℕ :=
  let grps := prefCounts bs
  maxOf (grps.dedup.map (fun g => grps.count g - (if g = 0 then 0 else 1)))

/-- The false-segment lengths of a flag list: the run of `false` before
the first `true`, then the run after each `true` (so `countTrues + 1`
entries in total). -/
def segs : List Bool → List ℕ
  | [] => [0]
  | true :: l => 0 :: segs l
  | false :: l =>
      match segs l with
      | h :: t => (h + 1) :: t
      | [] => [1]

/-- `d₁` extends `d₀`: every table of `d₁` is the corresponding table of
`d₀` with some rows appended — committed rows are never removed or
reordered. -/
def dbExtends (d0 d1 : App.Database) : Prop :=
  (∃ t, d1.shifts = d0.shifts ++ t) ∧
  (∃ t, d1.breaks = d0.breaks ++ t) ∧
  (∃ t, d1.allowances = d0.allowances ++ t) ∧
  (∃ t, d1.award_interpretations = d0.award_interpretations ++ t)

/-- Referential integrity of the persisted store: every child row's
`shift_id` belongs to some shift (the foreign keys guarantee this for any
reachable state). -/
abbrev fkIntact (db : SqlDb) : Prop :=
  (∀ b ∈ db.breaks, ∃ s ∈ db.shifts, s.shift_id = b.shift_id) ∧
  (∀ a ∈ db.allowances, ∃ s ∈ db.shifts, s.shift_id = a.shift_id) ∧
  (∀ w ∈ db.award_interpretations, ∃ s ∈ db.shifts, s.shift_id = w.shift_id)

/-- A finite `next`-chain as in the pagination-termination property:
starting from a non-empty URL, each page is fetched successfully and
processed successfully (`runPage` reports no error), every page but the
last resolves to the next URL of the chain, and the last page's envelope
has no `next`.  Stated as a boolean so concrete chains evaluate. -/
def chainRun (env : App.Env) (st : App.ProcState) :
    String → App.Database → List PageData → Bool
  | _, _, [] => true
  | u, db, [p] =>
      !(u == "") && (env.fetch u == some p) &&
      ((App.runPage st db p).2 == none) &&
      (App.get_next_url env.urljoin env.base_url p == none)
  | u, db, p :: q :: ps =>
      !(u == "") && (env.fetch u == some p) &&
      ((App.runPage st db p).2 == none) &&
      (App.get_next_url env.urljoin env.base_url p).isSome &&
      chainRun env st ((App.get_next_url env.urljoin env.base_url p).getD "")
        (App.runPage st db p).1 (q :: ps)

/-! ### Helper lemmas -/

theorem dictSet_of_not_mem (d : Dict) (k : String) (v : PyVal)
    (h : ∀ p ∈ d, p.1 ≠ k) : dictSet d k v = d ++ [(k, v)] := by
  unfold dictSet
  rw [if_neg]
  simp only [List.any_eq_true, decide_eq_true_eq, not_exists]
  exact fun p hc => h p hc.1 hc.2

theorem foldl_dictSet_append (pairs : List (String × PyVal)) : ∀ acc : Dict,
    (∀ p ∈ pairs, ∀ q ∈ acc, p.1 ≠ q.1) → (pairs.map Prod.fst).Nodup →
    pairs.foldl (fun d p => dictSet d p.1 p.2) acc = acc ++ pairs := by
  induction pairs with
  | nil => intro acc _ _; simp
  | cons p rest ih =>
      intro acc hdisj hnd
      simp only [List.foldl_cons]
      have hset : dictSet acc p.1 p.2 = acc ++ [p] := by
        rw [dictSet_of_not_mem acc p.1 p.2
          (fun q hq => Ne.symm (hdisj p (List.mem_cons_self p rest) q hq))]
      have hmem : p.1 ∉ rest.map Prod.fst := by
        simp only [List.map_cons, List.nodup_cons] at hnd
        exact hnd.1
      rw [hset, ih (acc ++ [p]) ?_ ?_]
      · simp
      · intro x hx q hq
        rcases List.mem_append.mp hq with h1 | h2
        · exact hdisj x (List.mem_cons_of_mem p hx) q h1
        · have : q = p := by simpa using h2
          subst this
          intro hc
          exact hmem (hc ▸ List.mem_map_of_mem Prod.fst hx)
      · simp only [List.map_cons, List.nodup_cons] at hnd
        exact hnd.2

theorem dictOfPairs_eq_self (pairs : List (String × PyVal))
    (h : (pairs.map Prod.fst).Nodup) : dictOfPairs pairs = pairs := by
  unfold dictOfPairs
  rw [foldl_dictSet_append pairs [] (by intro p _ q hq; simp at hq) h]
  simp

/-! ### C3 -/

/-- C3: the Timestamp Normalizer returns a timestamp exactly for int
instances strictly greater than zero (never raising), but the conversion
in `src/etl/app/shift_data_processor.py` divides with floor division
`// 1000`, truncating to whole seconds: at input 1701087005277 ms it
yields 1701087005 s, whereas the spec-mandated true division (as in
`src/etl/shift_data_processor.py`) yields 1701087005.277 s — sub-second
precision is lost. -/
theorem C3_parse_timestamp_truncation :
    (∀ v : PyVal, (App.parse_timestamp v).isSome ↔
      (isIntInstance v = true ∧ 0 < pyIntValue v)) ∧
    App.parse_timestamp (PyVal.int 1701087005277) = some ((1701087005 : ℚ)) ∧
    Root.parse_timestamp (PyVal.int 1701087005277) =
      some ((1701087005277 : ℚ) / 1000) ∧
    App.parse_timestamp (PyVal.int 1701087005277) ≠
      Root.parse_timestamp (PyVal.int 1701087005277) := by
  have hf : (1701087005277 : ℤ).fdiv 1000 = 1701087005 := by decide
  refine ⟨fun v => ?_, by decide, rfl, ?_⟩
  · by_cases h : isIntInstance v = true ∧ 0 < pyIntValue v
    · simp [App.parse_timestamp, h]
    · simp only [App.parse_timestamp, if_neg h]
      simpa using h
  · simp only [App.parse_timestamp, Root.parse_timestamp, isIntInstance, pyIntValue, hf]
    norm_num

/-! ### C4 -/

/-- C4: the KPI Aggregator always produces exactly six named values, but
on the empty dataset the scalar subquery for
`max_break_free_shift_period_in_days` yields no row, so SQL `NULL` —
not `0` — is inserted for it (the `COALESCE` sits inside the grouped
select); the other five missing-data cases do yield `0`. -/
theorem C4_kpis_empty_dataset :
    (∀ (today : ℤ) (db : SqlDb), (App.compute_kpis today db).length = 6) ∧
    App.compute_kpis 0 ⟨[], [], [], [], []⟩ =
      [⟨"mean_break_length_in_minutes", 0, some 0⟩,
       ⟨"mean_shift_cost", 0, some 0⟩,
       ⟨"max_allowance_cost_14d", 0, some 0⟩,
       ⟨"max_break_free_shift_period_in_days", 0, none⟩,
       ⟨"min_shift_length_in_hours", 0, some 0⟩,
       ⟨"total_number_of_paid_breaks", 0, some 0⟩] :=
  ⟨fun _ _ => rfl, by decide⟩

/-! ### C9 -/

/-- C9: Data Reset empties the shifts table (cascading to breaks,
allowances and award interpretations, given referential integrity) and
the kpis table; it is a no-op success on an empty store and idempotent. -/
theorem C9_clear_data_reset (db : SqlDb) (h : fkIntact db) :
    App.clear_data db = ⟨[], [], [], [], []⟩ ∧
    App.clear_data (App.clear_data db) = App.clear_data db ∧
    App.clear_data (⟨[], [], [], [], []⟩ : SqlDb) = ⟨[], [], [], [], []⟩ := by
  obtain ⟨hb, ha, hw⟩ := h
  have key : ∀ {α : Type} (children : List α) (sid : α → String),
      (∀ c ∈ children, ∃ s ∈ db.shifts, s.shift_id = sid c) →
      children.filter (fun c => !(db.shifts.any (fun s => s.shift_id == sid c))) = [] := by
    intro α children sid hc
    rw [List.filter_eq_nil_iff]
    intro c hcm
    obtain ⟨s, hs, hsid⟩ := hc c hcm
    simp only [Bool.not_eq_true', Bool.not_eq_false, List.any_eq_true]
    exact ⟨s, hs, by simp [hsid]⟩
  have h1 : App.clear_data db = ⟨[], [], [], [], []⟩ := by
    unfold App.clear_data
    rw [key db.breaks (fun b => b.shift_id) hb,
        key db.allowances (fun a => a.shift_id) ha,
        key db.award_interpretations (fun w => w.shift_id) hw]
  refine ⟨h1, ?_, by decide⟩
  rw [h1]
  decide

/-- C9 witness: a store with one shift, one break, one allowance, one
award interpretation and one KPI row satisfies referential integrity and
resets to the empty store. -/
theorem C9_clear_data_reset_witness :
    fkIntact ⟨[⟨"s1", 0, none, none, 0⟩],
              [⟨"b1", "s1", none, none, true⟩],
              [⟨"a1", "s1", 1, 2⟩],
              [⟨"w1", "s1", 0, 1, 3⟩],
              [⟨"mean_shift_cost", 0, some 0⟩]⟩ ∧
    App.clear_data ⟨[⟨"s1", 0, none, none, 0⟩],
              [⟨"b1", "s1", none, none, true⟩],
              [⟨"a1", "s1", 1, 2⟩],
              [⟨"w1", "s1", 0, 1, 3⟩],
              [⟨"mean_shift_cost", 0, some 0⟩]⟩ = ⟨[], [], [], [], []⟩ :=
  ⟨by decide,
   (C9_clear_data_reset _ (by decide)).1⟩

theorem lookup_eq_none_of_not_mem {β : Type} (m : List (String × β)) (k : String)
    (h : k ∉ m.map Prod.fst) : m.lookup k = none := by
  induction m with
  | nil => rfl
  | cons p rest ih =>
      obtain ⟨a, b⟩ := p
      simp only [List.map_cons, List.mem_cons, not_or] at h
      have hne : (k == a) = false := beq_eq_false_iff_ne.mpr h.1
      simp [List.lookup, hne, ih h.2]

theorem mappingGetD_of_not_mem {m : List (String × String)} {k : String}
    (h : k ∉ m.map Prod.fst) : mappingGetD m k = k := by
  unfold mappingGetD
  rw [lookup_eq_none_of_not_mem m k h]

/-! ### C8 -/

/-- C8 counterexample: on the flattened child record
`{'id': 1, 'award_id': 2}` the dict comprehension maps both keys to
`award_id` and the later entry wins, so the output is
`{'award_id': 2}` — the entry renamed from `id` does not survive with
its original value, contradicting the claim that `id` is renamed while
every unmapped key passes through with its original value. -/
theorem C8_counterexample :
    App.map_dict_keys [[("id", PyVal.int 1), ("award_id", PyVal.int 2)]]
        App.awardMapping = [[("award_id", PyVal.int 2)]] ∧
    ¬ (∀ p ∈ ([("id", PyVal.int 1), ("award_id", PyVal.int 2)] : Dict),
        (mappingGetD App.awardMapping p.1, p.2) ∈
          ([("award_id", PyVal.int 2)] : Dict)) := by
  constructor
  · decide
  · decide

/-- C8 (amended): provided the renaming is collision-free on the
record's keys (the mapped keys are pairwise distinct — in particular the
record does not already contain a key some other key is renamed to), the
Record Transformer's `map_dict_keys` renames each key through the
mapping and passes every key not in the mapping through unchanged with
its original value; the award mapping sends `id`/`date`/`units`/`cost`
to `award_id`/`award_date`/`award_units`/`award_cost` and the allowance
mapping sends `id`/`value`/`cost` to
`allowance_id`/`allowance_value`/`allowance_cost`, leaving all other
keys fixed. -/
theorem C8_child_key_renaming (m : List (String × String)) (record : Dict)
    (h : (record.map (fun p => mappingGetD m p.1)).Nodup) :
    App.map_dict_keys [record] m =
      [record.map (fun p => (mappingGetD m p.1, p.2))] ∧
    (∀ k, k ∉ (["id", "date", "units", "cost"] : List String) →
      mappingGetD App.awardMapping k = k) ∧
    (∀ k, k ∉ (["id", "value", "cost"] : List String) →
      mappingGetD App.allowanceMapping k = k) ∧
    mappingGetD App.awardMapping "id" = "award_id" ∧
    mappingGetD App.awardMapping "date" = "award_date" ∧
    mappingGetD App.awardMapping "units" = "award_units" ∧
    mappingGetD App.awardMapping "cost" = "award_cost" ∧
    mappingGetD App.allowanceMapping "id" = "allowance_id" ∧
    mappingGetD App.allowanceMapping "value" = "allowance_value" ∧
    mappingGetD App.allowanceMapping "cost" = "allowance_cost" := by
  refine ⟨?_, ?_, ?_, by decide, by decide, by decide, by decide, by decide,
    by decide, by decide⟩
  · unfold App.map_dict_keys
    simp only [List.map_cons, List.map_nil, List.cons.injEq, and_true]
    apply dictOfPairs_eq_self
    rw [List.map_map]
    exact h
  · intro k hk
    apply mappingGetD_of_not_mem
    simpa [App.awardMapping] using hk
  · intro k hk
    apply mappingGetD_of_not_mem
    simpa [App.allowanceMapping] using hk

/-- C8 witness: a concrete award-interpretation record with the mapped
keys, an unmapped key and the appended `shift_id` key is renamed
entry-by-entry. -/
theorem C8_child_key_renaming_witness :
    (([("id", PyVal.str "a"), ("date", PyVal.str "2023-11-28"),
       ("units", PyVal.float 1), ("cost", PyVal.float 5),
       ("foo", PyVal.int 7), ("shift_id", PyVal.str "s")] : Dict).map
        (fun p => mappingGetD App.awardMapping p.1)).Nodup ∧
    App.map_dict_keys
        [[("id", PyVal.str "a"), ("date", PyVal.str "2023-11-28"),
          ("units", PyVal.float 1), ("cost", PyVal.float 5),
          ("foo", PyVal.int 7), ("shift_id", PyVal.str "s")]] App.awardMapping =
      [([("id", PyVal.str "a"), ("date", PyVal.str "2023-11-28"),
         ("units", PyVal.float 1), ("cost", PyVal.float 5),
         ("foo", PyVal.int 7), ("shift_id", PyVal.str "s")] : Dict).map
        (fun p => (mappingGetD App.awardMapping p.1, p.2))] :=
  ⟨by decide, (C8_child_key_renaming App.awardMapping _ (by decide)).1⟩

/-! ### C6 -/

theorem except_ok_bind {ε α β : Type} (a : α) (f : α → Except ε β) :
    (Except.ok a >>= f) = f a := rfl

theorem except_error_bind {ε α β : Type} (e : ε) (f : α → Except ε β) :
    ((Except.error e : Except ε α) >>= f) = Except.error e := rfl

/-- C6: every shift row produced by the Record Transformer has
`shift_cost = round(sum of the shift's allowance costs + sum of its
award-interpretation costs, 4)`, an empty child list contributing `0` to
the sum. -/
theorem C6_shift_cost (results : List ShiftResult) (rows : List ShiftRow)
    (h : App.process_shifts results = Except.ok rows) :
    rows.length = results.length ∧
    ∀ (i : ℕ) (res : ShiftResult), results[i]? = some res →
      ∃ (r : ShiftRow) (sa sw : ℚ), rows[i]? = some r ∧
        App.sumCosts res.allowances = Except.ok sa ∧
        App.sumCosts res.award_interpretations = Except.ok sw ∧
        r.shift_cost = pyRound4 (sa + sw) ∧
        (res.allowances = [] → sa = 0) ∧
        (res.award_interpretations = [] → sw = 0) := by
  induction results generalizing rows with
  | nil =>
      simp only [App.process_shifts, Except.ok.injEq] at h
      subst h
      exact ⟨rfl, by intro i res h'; simp at h'⟩
  | cons r rs ih =>
      simp only [App.process_shifts] at h
      cases h1 : App.sumCosts r.allowances with
      | error e => rw [h1, except_error_bind] at h; exact Except.noConfusion h
      | ok sa =>
        rw [h1, except_ok_bind] at h
        cases h2 : App.sumCosts r.award_interpretations with
        | error e => rw [h2, except_error_bind] at h; exact Except.noConfusion h
        | ok sw =>
          rw [h2, except_ok_bind] at h
          cases h3 : App.process_shifts rs with
          | error e => rw [h3, except_error_bind] at h; exact Except.noConfusion h
          | ok rest =>
            rw [h3, except_ok_bind] at h
            cases h
            obtain ⟨ihlen, ihidx⟩ := ih rest h3
            refine ⟨by simp [ihlen], ?_⟩
            intro i res hres
            cases i with
            | zero =>
                simp only [List.getElem?_cons_zero, Option.some.injEq] at hres
                subst hres
                refine ⟨_, sa, sw, List.getElem?_cons_zero, h1, h2, rfl, ?_, ?_⟩
                · intro he
                  rw [he] at h1
                  simp only [App.sumCosts, Except.ok.injEq] at h1
                  exact h1.symm
                · intro he
                  rw [he] at h2
                  simp only [App.sumCosts, Except.ok.injEq] at h2
                  exact h2.symm
            | succ n =>
                simp only [List.getElem?_cons_succ] at hres ⊢
                exact ihidx n res hres

/-- C6 witness: the first test shift (three allowances costing 2.5, 29.7
and 12.2, no award interpretations) transforms to a single row whose
cost is the rounded sum. -/
theorem C6_shift_cost_witness :
    App.process_shifts
        [⟨PyVal.str "shiftA", PyVal.str "2023-11-27",
          PyVal.int 1701077400000, PyVal.int 1701108900000, [],
          [[("id", PyVal.str "al1"), ("value", PyVal.float (1/2)),
            ("cost", PyVal.float (5/2))],
           [("id", PyVal.str "al2"), ("value", PyVal.float (1/2)),
            ("cost", PyVal.float (297/10))],
           [("id", PyVal.str "al3"), ("value", PyVal.float (3/2)),
            ("cost", PyVal.float (61/5))]],
          []⟩] =
      Except.ok
        [{ shift_id := PyVal.str "shiftA", shift_date := PyVal.str "2023-11-27",
           shift_cost := pyRound4 ((5/2 : ℚ) + (297/10 + (61/5 + 0)) + 0),
           shift_start := App.parse_timestamp (PyVal.int 1701077400000),
           shift_finish := App.parse_timestamp (PyVal.int 1701108900000) }] ∧
    ∀ (i : ℕ) (res : ShiftResult),
      ([⟨PyVal.str "shiftA", PyVal.str "2023-11-27",
         PyVal.int 1701077400000, PyVal.int 1701108900000, [],
         [[("id", PyVal.str "al1"), ("value", PyVal.float (1/2)),
           ("cost", PyVal.float (5/2))],
          [("id", PyVal.str "al2"), ("value", PyVal.float (1/2)),
           ("cost", PyVal.float (297/10))],
          [("id", PyVal.str "al3"), ("value", PyVal.float (3/2)),
           ("cost", PyVal.float (61/5))]],
         []⟩] : List ShiftResult)[i]? = some res →
      ∃ (r : ShiftRow) (sa sw : ℚ),
        ([{ shift_id := PyVal.str "shiftA", shift_date := PyVal.str "2023-11-27",
            shift_cost := pyRound4 ((5/2 : ℚ) + (297/10 + (61/5 + 0)) + 0),
            shift_start := App.parse_timestamp (PyVal.int 1701077400000),
            shift_finish := App.parse_timestamp (PyVal.int 1701108900000) }] :
          List ShiftRow)[i]? = some r ∧
        App.sumCosts res.allowances = Except.ok sa ∧
        App.sumCosts res.award_interpretations = Except.ok sw ∧
        r.shift_cost = pyRound4 (sa + sw) ∧
        (res.allowances = [] → sa = 0) ∧
        (res.award_interpretations = [] → sw = 0) :=
  ⟨rfl, (C6_shift_cost _ _ (by rfl)).2⟩

/-! ### C10 and C1 -/

theorem insertRows_ok_append {α : Type} (pk : α → PyVal) (fkOk : α → Bool) :
    ∀ (data table res : List α),
      App.insertRows pk fkOk table data = Except.ok res → res = table ++ data := by
  intro data
  induction data with
  | nil =>
      intro table res h
      simp only [App.insertRows, Except.ok.injEq] at h
      simp [← h]
  | cons row rest ih =>
      intro table res h
      simp only [App.insertRows] at h
      split at h
      · exact Except.noConfusion h
      · split at h
        · exact Except.noConfusion h
        · have hres := ih (table ++ [row]) res h
          simp [hres]

theorem process_and_insert_ok_shape (st : App.ProcState) (db db' : App.Database)
    (jd : PageData) (h : App.process_and_insert_data st db jd = Except.ok db') :
    ∃ (res : App.ProcState) (al : List App.AllowanceRow) (aw : List App.AwardRow),
      App.process_json st jd = Except.ok res ∧
      App.dataTuples App.allowanceTuple res.allowances = Except.ok al ∧
      App.dataTuples App.awardTuple res.award_interpretations = Except.ok aw ∧
      db' = ⟨db.shifts ++ res.shifts, db.breaks ++ res.breaks,
             db.allowances ++ al, db.award_interpretations ++ aw⟩ := by
  unfold App.process_and_insert_data at h
  cases hj : App.process_json st jd with
  | error e => rw [hj, except_error_bind] at h; exact Except.noConfusion h
  | ok res =>
      rw [hj, except_ok_bind] at h
      cases h1 : App.insertRows (fun r => r.shift_id) (fun _ => true)
          db.shifts res.shifts with
      | error e => rw [h1, except_error_bind] at h; exact Except.noConfusion h
      | ok s' =>
          rw [h1, except_ok_bind] at h
          cases h2 : App.insertRows (fun r => r.break_id)
              (fun b => s'.any (fun s => s.shift_id == b.shift_id))
              db.breaks res.breaks with
          | error e => rw [h2, except_error_bind] at h; exact Except.noConfusion h
          | ok b' =>
              rw [h2, except_ok_bind] at h
              cases h3 : App.dataTuples App.allowanceTuple res.allowances with
              | error e => rw [h3, except_error_bind] at h; exact Except.noConfusion h
              | ok alr =>
                  rw [h3, except_ok_bind] at h
                  cases h4 : App.insertRows (fun r => r.allowance_id)
                      (fun a => s'.any (fun s => s.shift_id == a.shift_id))
                      db.allowances alr with
                  | error e => rw [h4, except_error_bind] at h; exact Except.noConfusion h
                  | ok a' =>
                      rw [h4, except_ok_bind] at h
                      cases h5 : App.dataTuples App.awardTuple
                          res.award_interpretations with
                      | error e =>
                          rw [h5, except_error_bind] at h; exact Except.noConfusion h
                      | ok awr =>
                          rw [h5, except_ok_bind] at h
                          cases h6 : App.insertRows (fun r => r.award_id)
                              (fun a => s'.any (fun s => s.shift_id == a.shift_id))
                              db.award_interpretations awr with
                          | error e =>
                              rw [h6, except_error_bind] at h
                              exact Except.noConfusion h
                          | ok w' =>
                              rw [h6, except_ok_bind] at h
                              cases h
                              refine ⟨res, alr, awr, rfl, h3, h5, ?_⟩
                              rw [insertRows_ok_append _ _ _ _ _ h1,
                                  insertRows_ok_append _ _ _ _ _ h2,
                                  insertRows_ok_append _ _ _ _ _ h4,
                                  insertRows_ok_append _ _ _ _ _ h6]

/-- C10: `process_json` wholly replaces the processor's four record-set
fields — its result is independent of the previous state and contains
exactly the transforms of the page just processed — and consequently a
successful page write appends to each table exactly the records derived
from that page, never a record originating from an earlier page. -/
theorem C10_page_scoped_state (st1 st2 : App.ProcState) (jd : PageData) :
    App.process_json st1 jd = App.process_json st2 jd ∧
    (∀ res : App.ProcState, App.process_json st1 jd = Except.ok res →
      App.process_shifts jd.results = Except.ok res.shifts ∧
      App.process_breaks jd.results = Except.ok res.breaks ∧
      res.allowances = App.process_allowances jd.results ∧
      res.award_interpretations = App.process_award_interpretations jd.results) ∧
    (∀ db db' : App.Database,
      App.process_and_insert_data st1 db jd = Except.ok db' →
      ∃ (res : App.ProcState) (al : List App.AllowanceRow) (aw : List App.AwardRow),
        App.process_json st1 jd = Except.ok res ∧
        App.dataTuples App.allowanceTuple res.allowances = Except.ok al ∧
        App.dataTuples App.awardTuple res.award_interpretations = Except.ok aw ∧
        db'.shifts = db.shifts ++ res.shifts ∧
        db'.breaks = db.breaks ++ res.breaks ∧
        db'.allowances = db.allowances ++ al ∧
        db'.award_interpretations = db.award_interpretations ++ aw) := by
  refine ⟨rfl, ?_, ?_⟩
  · intro res h
    simp only [App.process_json] at h
    cases hs : App.process_shifts jd.results with
    | error e => rw [hs, except_error_bind] at h; exact Except.noConfusion h
    | ok sh =>
        rw [hs, except_ok_bind] at h
        cases hb : App.process_breaks jd.results with
        | error e => rw [hb, except_error_bind] at h; exact Except.noConfusion h
        | ok br =>
            rw [hb, except_ok_bind] at h
            cases h
            exact ⟨rfl, rfl, rfl, rfl⟩
  · intro db db' h
    obtain ⟨res, al, aw, hj, ha, hw, hdb⟩ :=
      process_and_insert_ok_shape st1 db db' jd h
    exact ⟨res, al, aw, hj, ha, hw, by rw [hdb], by rw [hdb], by rw [hdb],
      by rw [hdb]⟩

/-- C10 witness: a page with one child-free shift processed from two
different prior states yields the same, page-derived records, and the
write appends exactly them. -/
theorem C10_page_scoped_state_witness :
    App.process_json ⟨[], [], [], []⟩
        ⟨[⟨PyVal.str "s1", PyVal.str "2023-11-27", PyVal.pynone, PyVal.pynone,
           [], [], []⟩], ⟨none, none⟩⟩ =
      App.process_json
        ⟨[⟨PyVal.str "old", PyVal.str "old", pyRound4 (0 + 0), none, none⟩],
         [], [], []⟩
        ⟨[⟨PyVal.str "s1", PyVal.str "2023-11-27", PyVal.pynone, PyVal.pynone,
           [], [], []⟩], ⟨none, none⟩⟩ ∧
    (∃ (res : App.ProcState) (al : List App.AllowanceRow)
        (aw : List App.AwardRow),
      App.process_json ⟨[], [], [], []⟩
          ⟨[⟨PyVal.str "s1", PyVal.str "2023-11-27", PyVal.pynone, PyVal.pynone,
             [], [], []⟩], ⟨none, none⟩⟩ = Except.ok res ∧
      App.dataTuples App.allowanceTuple res.allowances = Except.ok al ∧
      App.dataTuples App.awardTuple res.award_interpretations = Except.ok aw ∧
      (⟨[⟨PyVal.str "s1", PyVal.str "2023-11-27", pyRound4 (0 + 0),
          App.parse_timestamp PyVal.pynone, App.parse_timestamp PyVal.pynone⟩],
        [], [], []⟩ : App.Database).shifts = [] ++ res.shifts ∧
      (⟨[⟨PyVal.str "s1", PyVal.str "2023-11-27", pyRound4 (0 + 0),
          App.parse_timestamp PyVal.pynone, App.parse_timestamp PyVal.pynone⟩],
        [], [], []⟩ : App.Database).breaks = [] ++ res.breaks ∧
      (⟨[⟨PyVal.str "s1", PyVal.str "2023-11-27", pyRound4 (0 + 0),
          App.parse_timestamp PyVal.pynone, App.parse_timestamp PyVal.pynone⟩],
        [], [], []⟩ : App.Database).allowances = [] ++ al ∧
      (⟨[⟨PyVal.str "s1", PyVal.str "2023-11-27", pyRound4 (0 + 0),
          App.parse_timestamp PyVal.pynone, App.parse_timestamp PyVal.pynone⟩],
        [], [], []⟩ : App.Database).award_interpretations = [] ++ aw) :=
  ⟨(C10_page_scoped_state ⟨[], [], [], []⟩
      ⟨[⟨PyVal.str "old", PyVal.str "old", pyRound4 (0 + 0), none, none⟩],
       [], [], []⟩ _).1,
   (C10_page_scoped_state ⟨[], [], [], []⟩ ⟨[], [], [], []⟩ _).2.2
     ⟨[], [], [], []⟩ _ (by rfl)⟩

/-- C1: the four record sets of a page are written inside one
transaction in the order shifts, breaks, allowances,
award_interpretations; on any insertion failure the page's transaction
rolls back — the committed store is exactly what it was before, so no
row of that page (none that was not already committed) is present in
any of the four tables — and on success all four record sets are
appended atomically. -/
theorem C1_transactional_write (st : App.ProcState) (db : App.Database)
    (jd : PageData) :
    ((App.runPage st db jd).2.isSome →
      (App.runPage st db jd).1 = db ∧
      (∀ x, x ∉ db.shifts → x ∉ (App.runPage st db jd).1.shifts) ∧
      (∀ x, x ∉ db.breaks → x ∉ (App.runPage st db jd).1.breaks) ∧
      (∀ x, x ∉ db.allowances → x ∉ (App.runPage st db jd).1.allowances) ∧
      (∀ x, x ∉ db.award_interpretations →
        x ∉ (App.runPage st db jd).1.award_interpretations)) ∧
    ((App.runPage st db jd).2 = none →
      ∃ (res : App.ProcState) (al : List App.AllowanceRow)
        (aw : List App.AwardRow),
        App.process_json st jd = Except.ok res ∧
        App.dataTuples App.allowanceTuple res.allowances = Except.ok al ∧
        App.dataTuples App.awardTuple res.award_interpretations = Except.ok aw ∧
        (App.runPage st db jd).1 =
          ⟨db.shifts ++ res.shifts, db.breaks ++ res.breaks,
           db.allowances ++ al, db.award_interpretations ++ aw⟩) := by
  unfold App.runPage
  cases hp : App.process_and_insert_data st db jd with
  | error e =>
      refine ⟨fun _ => ⟨rfl, ?_, ?_, ?_, ?_⟩, fun hnone => Option.noConfusion hnone⟩
      all_goals intro x hx; exact hx
  | ok db' =>
      refine ⟨fun hsome => Bool.noConfusion hsome, fun _ => ?_⟩
      obtain ⟨res, al, aw, hj, ha, hw, hdb⟩ :=
        process_and_insert_ok_shape st db db' jd hp
      exact ⟨res, al, aw, hj, ha, hw, hdb⟩

/-- C1 witness: the repository's own failure scenario — one page with
two shifts whose breaks share the id `16419f82` — fails the breaks
insert, and afterwards the (initially empty) store is still empty. -/
theorem C1_transactional_write_witness :
    ((App.runPage ⟨[], [], [], []⟩ ⟨[], [], [], []⟩
        ⟨[⟨PyVal.str "b2b9437a", PyVal.str "2023-11-27",
           PyVal.int 1701077400000, PyVal.int 1701108900000,
           [[("id", PyVal.str "16419f82"), ("start", PyVal.int 1701085620000),
             ("finish", PyVal.int 1701087005277), ("paid", PyVal.bool false)]],
           [], []⟩,
          ⟨PyVal.str "d453dd32", PyVal.str "2023-11-28",
           PyVal.int 1701160200000, PyVal.int 1701198000000,
           [[("id", PyVal.str "16419f82"), ("start", PyVal.int 1701168180000),
             ("finish", PyVal.int 1701169724388), ("paid", PyVal.bool true)]],
           [], []⟩], ⟨none, none⟩⟩).2.isSome) ∧
    (App.runPage ⟨[], [], [], []⟩ ⟨[], [], [], []⟩
        ⟨[⟨PyVal.str "b2b9437a", PyVal.str "2023-11-27",
           PyVal.int 1701077400000, PyVal.int 1701108900000,
           [[("id", PyVal.str "16419f82"), ("start", PyVal.int 1701085620000),
             ("finish", PyVal.int 1701087005277), ("paid", PyVal.bool false)]],
           [], []⟩,
          ⟨PyVal.str "d453dd32", PyVal.str "2023-11-28",
           PyVal.int 1701160200000, PyVal.int 1701198000000,
           [[("id", PyVal.str "16419f82"), ("start", PyVal.int 1701168180000),
             ("finish", PyVal.int 1701169724388), ("paid", PyVal.bool true)]],
           [], []⟩], ⟨none, none⟩⟩).1 = ⟨[], [], [], []⟩ :=
  ⟨by decide,
   ((C1_transactional_write ⟨[], [], [], []⟩ ⟨[], [], [], []⟩ _).1 (by decide)).1⟩

/-! ### C2 -/

theorem dbExtends_refl (db : App.Database) : dbExtends db db :=
  ⟨⟨[], by simp⟩, ⟨[], by simp⟩, ⟨[], by simp⟩, ⟨[], by simp⟩⟩

theorem dbExtends_trans {d0 d1 d2 : App.Database}
    (h1 : dbExtends d0 d1) (h2 : dbExtends d1 d2) : dbExtends d0 d2 := by
  obtain ⟨⟨s1, hs1⟩, ⟨b1, hb1⟩, ⟨a1, ha1⟩, ⟨w1, hw1⟩⟩ := h1
  obtain ⟨⟨s2, hs2⟩, ⟨b2, hb2⟩, ⟨a2, ha2⟩, ⟨w2, hw2⟩⟩ := h2
  exact ⟨⟨s1 ++ s2, by rw [hs2, hs1, List.append_assoc]⟩,
         ⟨b1 ++ b2, by rw [hb2, hb1, List.append_assoc]⟩,
         ⟨a1 ++ a2, by rw [ha2, ha1, List.append_assoc]⟩,
         ⟨w1 ++ w2, by rw [hw2, hw1, List.append_assoc]⟩⟩

theorem process_and_insert_extends (st : App.ProcState) (db db' : App.Database)
    (jd : PageData) (h : App.process_and_insert_data st db jd = Except.ok db') :
    dbExtends db db' := by
  obtain ⟨res, al, aw, _, _, _, hdb⟩ := process_and_insert_ok_shape st db db' jd h
  subst hdb
  exact ⟨⟨res.shifts, rfl⟩, ⟨res.breaks, rfl⟩, ⟨al, rfl⟩, ⟨aw, rfl⟩⟩

theorem loopPages_extends (env : App.Env) (st : App.ProcState) :
    ∀ (fuel : ℕ) (url : String) (db : App.Database) (n : ℕ),
      dbExtends db (App.loopPages env st fuel url db n).db := by
  intro fuel
  induction fuel with
  | zero => intro url db n; exact dbExtends_refl db
  | succ f ih =>
      intro url db n
      simp only [App.loopPages]
      split
      · exact dbExtends_refl db
      · split
        · exact dbExtends_refl db
        · rename_i jd hf
          split
          · exact dbExtends_refl db
          · rename_i db' hp
            have hext := process_and_insert_extends st db db' jd hp
            split
            · rename_i u hn
              exact dbExtends_trans hext (ih u db' (n + 1))
            · exact hext

/-- C2: whenever some page's fetch, transformation or write fails, the
loop ends in a `failed` state whose error is reported as the run's
outcome (never swallowed), `compute_kpis` is not invoked for that run,
and every row committed before the failure is still present, unchanged
and in place, in the final store. -/
theorem C2_failure_surfaced (env : App.Env) (st : App.ProcState) (fuel : ℕ)
    (api_url : String) (db : App.Database) :
    (∀ e, (App.loopPages env st fuel api_url db 0).status =
        App.LoopStatus.failed e →
      (App.process_all_pages env st fuel api_url db).outcome =
        App.Outcome.err e) ∧
    (∀ e, (App.process_all_pages env st fuel api_url db).outcome =
        App.Outcome.err e →
      (App.process_all_pages env st fuel api_url db).kpiRuns = 0) ∧
    dbExtends db (App.process_all_pages env st fuel api_url db).db := by
  unfold App.process_all_pages
  have hext := loopPages_extends env st fuel api_url db 0
  cases hl : App.loopPages env st fuel api_url db 0 with
  | mk db' n status =>
      rw [hl] at hext
      cases status with
      | done =>
          exact ⟨fun e he => App.LoopStatus.noConfusion he,
                 fun e he => App.Outcome.noConfusion he, hext⟩
      | failed msg =>
          refine ⟨fun e he => ?_, fun e he => rfl, hext⟩
          cases he
          rfl
      | outOfFuel =>
          exact ⟨fun e he => App.LoopStatus.noConfusion he,
                 fun e he => App.Outcome.noConfusion he, hext⟩

/-- C2 witness: with an environment whose every fetch fails, the run
reports the fetch failure and performs no KPI computation. -/
theorem C2_failure_surfaced_witness :
    (App.process_all_pages ⟨fun _ => none, fun _ n => n, "b"⟩ ⟨[], [], [], []⟩
        1 "u" ⟨[], [], [], []⟩).outcome =
      App.Outcome.err "Failed to fetch data for the page." ∧
    (App.process_all_pages ⟨fun _ => none, fun _ n => n, "b"⟩ ⟨[], [], [], []⟩
        1 "u" ⟨[], [], [], []⟩).kpiRuns = 0 :=
  have h1 := (C2_failure_surfaced ⟨fun _ => none, fun _ n => n, "b"⟩
    ⟨[], [], [], []⟩ 1 "u" ⟨[], [], [], []⟩).1
    "Failed to fetch data for the page." (by decide)
  ⟨h1, (C2_failure_surfaced ⟨fun _ => none, fun _ n => n, "b"⟩
    ⟨[], [], [], []⟩ 1 "u" ⟨[], [], [], []⟩).2.1
    "Failed to fetch data for the page." h1⟩

/-! ### C5 -/

theorem runPage_none_ok (st : App.ProcState) (db : App.Database) (jd : PageData)
    (h : (App.runPage st db jd).2 = none) :
    App.process_and_insert_data st db jd = Except.ok (App.runPage st db jd).1 := by
  unfold App.runPage at h ⊢
  cases hp : App.process_and_insert_data st db jd with
  | error e => rw [hp] at h; exact Option.noConfusion h
  | ok db' => rfl

theorem chainRun_loop (env : App.Env) (st : App.ProcState) :
    ∀ (pages : List PageData) (fuel : ℕ) (u : String) (db : App.Database) (n : ℕ),
      chainRun env st u db pages = true → pages ≠ [] → pages.length ≤ fuel →
      ∃ dbf, App.loopPages env st fuel u db n =
        ⟨dbf, n + pages.length, App.LoopStatus.done⟩ := by
  intro pages
  induction pages with
  | nil => intro _ _ _ _ _ hne _; exact absurd rfl hne
  | cons p ps ih =>
      intro fuel u db n hch hne hfuel
      cases fuel with
      | zero => simp at hfuel
      | succ f =>
          cases ps with
          | nil =>
              simp only [chainRun, Bool.and_eq_true, Bool.not_eq_true',
                beq_iff_eq] at hch
              obtain ⟨⟨⟨hu, hf⟩, hr⟩, hnext⟩ := hch
              have hp := runPage_none_ok st db p hr
              simp only [App.loopPages, if_neg (ne_of_beq_false hu), hf, hp, hnext]
              exact ⟨(App.runPage st db p).1, rfl⟩
          | cons q ps' =>
              simp only [chainRun, Bool.and_eq_true, Bool.not_eq_true',
                beq_iff_eq] at hch
              obtain ⟨⟨⟨⟨hu, hf⟩, hr⟩, hsome⟩, hch'⟩ := hch
              have hp := runPage_none_ok st db p hr
              obtain ⟨u', hu'⟩ := Option.isSome_iff_exists.mp hsome
              have hgd : (App.get_next_url env.urljoin env.base_url p).getD "" = u' := by
                rw [hu']; rfl
              rw [hgd] at hch'
              have hfuel' : (q :: ps').length ≤ f := by
                simpa [Nat.succ_le_succ_iff] using hfuel
              obtain ⟨dbf, hloop⟩ :=
                ih f u' (App.runPage st db p).1 (n + 1) hch' (by simp) hfuel'
              refine ⟨dbf, ?_⟩
              have hfe : n + 1 + (q :: ps').length = n + (p :: q :: ps').length := by
                simp only [List.length_cons]
                omega
              simp only [App.loopPages, if_neg (ne_of_beq_false hu), hf, hp, hu',
                hloop, hfe]

/-- C5: along a finite chain of N pages in which pages 1..N-1 each carry
a next link resolving to the following page's URL and the last page's
envelope has none, the driver performs exactly N fetch/process cycles,
terminates, and invokes the KPI Aggregator exactly once before the run
reports success. -/
theorem C5_pagination_termination (env : App.Env) (st : App.ProcState)
    (u : String) (db : App.Database) (pages : List PageData) (fuel : ℕ)
    (hch : chainRun env st u db pages = true) (hne : pages ≠ [])
    (hfuel : pages.length ≤ fuel) :
    (App.process_all_pages env st fuel u db).fetches = pages.length ∧
    (App.process_all_pages env st fuel u db).kpiRuns = 1 ∧
    (App.process_all_pages env st fuel u db).outcome = App.Outcome.ok := by
  obtain ⟨dbf, hloop⟩ := chainRun_loop env st pages fuel u db 0 hch hne hfuel
  unfold App.process_all_pages
  rw [hloop]
  exact ⟨by simp, rfl, rfl⟩

/-- C5 witness: a concrete two-page chain (the second page reached via
the first page's `next` link) yields exactly two fetch/process cycles,
one KPI run, and a successful outcome. -/
theorem C5_pagination_termination_witness :
    chainRun
        ⟨fun u => if u = "u1" then some ⟨[], ⟨some "u2", some "b"⟩⟩
                  else if u = "u2" then some ⟨[], ⟨none, none⟩⟩ else none,
         fun _ n => n, "b"⟩ ⟨[], [], [], []⟩ "u1" ⟨[], [], [], []⟩
        [⟨[], ⟨some "u2", some "b"⟩⟩, ⟨[], ⟨none, none⟩⟩] = true ∧
    (App.process_all_pages
        ⟨fun u => if u = "u1" then some ⟨[], ⟨some "u2", some "b"⟩⟩
                  else if u = "u2" then some ⟨[], ⟨none, none⟩⟩ else none,
         fun _ n => n, "b"⟩ ⟨[], [], [], []⟩ 2 "u1" ⟨[], [], [], []⟩).fetches = 2 ∧
    (App.process_all_pages
        ⟨fun u => if u = "u1" then some ⟨[], ⟨some "u2", some "b"⟩⟩
                  else if u = "u2" then some ⟨[], ⟨none, none⟩⟩ else none,
         fun _ n => n, "b"⟩ ⟨[], [], [], []⟩ 2 "u1" ⟨[], [], [], []⟩).kpiRuns = 1 ∧
    (App.process_all_pages
        ⟨fun u => if u = "u1" then some ⟨[], ⟨some "u2", some "b"⟩⟩
                  else if u = "u2" then some ⟨[], ⟨none, none⟩⟩ else none,
         fun _ n => n, "b"⟩ ⟨[], [], [], []⟩ 2 "u1" ⟨[], [], [], []⟩).outcome =
      App.Outcome.ok :=
  ⟨by decide,
   C5_pagination_termination
     ⟨fun u => if u = "u1" then some ⟨[], ⟨some "u2", some "b"⟩⟩
               else if u = "u2" then some ⟨[], ⟨none, none⟩⟩ else none,
      fun _ n => n, "b"⟩ ⟨[], [], [], []⟩ "u1" ⟨[], [], [], []⟩
     [⟨[], ⟨some "u2", some "b"⟩⟩, ⟨[], ⟨none, none⟩⟩] 2
     (by decide) (by decide) (by decide)⟩

/-! ### C7 -/

theorem maxOf_perm {l l' : List ℕ} (h : l.Perm l') : maxOf l = maxOf l' := by
  induction h with
  | nil => rfl
  | cons x _ ih => simp only [maxOf, ih]
  | swap x y l =>
      cases hm : maxOf l with
      | none => simp [maxOf, hm, Nat.max_comm]
      | some m =>
          simp only [maxOf, hm]
          rw [Nat.max_left_comm]
  | trans _ _ ih1 ih2 => exact ih1.trans ih2

theorem maxOf_cons : ∀ (l : List ℕ) (x : ℕ),
    maxOf (x :: l) = some (max x (l.foldr max 0)) := by
  intro l
  induction l with
  | nil => intro x; simp [maxOf]
  | cons y ys ih =>
      intro x
      rw [maxOf, ih y]
      rfl

theorem maxOf_eq_foldr : ∀ l : List ℕ, l ≠ [] → maxOf l = some (l.foldr max 0) := by
  intro l
  cases l with
  | nil => intro h; exact absurd rfl h
  | cons x xs => intro _; rw [maxOf_cons, List.foldr_cons]

theorem segs_ne_nil : ∀ bs : List Bool, segs bs ≠ [] := by
  intro bs
  induction bs with
  | nil => simp [segs]
  | cons b l ih =>
      cases b
      · cases hs : segs l with
        | nil => exact absurd hs ih
        | cons h t => simp [segs, hs]
      · simp [segs]

theorem segs_head : ∀ bs : List Bool, (segs bs).head? = some (leadFalses bs) := by
  intro bs
  induction bs with
  | nil => rfl
  | cons b l ih =>
      cases b
      · cases hs : segs l with
        | nil => exact absurd hs (segs_ne_nil l)
        | cons h t =>
            rw [hs] at ih
            simp only [List.head?_cons, Option.some.injEq] at ih
            simp [segs, hs, leadFalses, ih]
      · simp [segs, leadFalses]

theorem longestFalseRun_eq_segs (bs : List Bool) :
    longestFalseRun bs = (segs bs).foldr max 0 := by
  induction bs with
  | nil => simp [longestFalseRun, segs]
  | cons b l ih =>
      cases b
      · cases hs : segs l with
        | nil => exact absurd hs (segs_ne_nil l)
        | cons h t =>
            have hh : h = leadFalses l := by
              have hhead := segs_head l
              rw [hs] at hhead
              simpa using hhead
            simp only [longestFalseRun, segs, hs, List.foldr_cons]
            rw [ih, hs, List.foldr_cons, ← hh, ← Nat.max_assoc,
              Nat.max_eq_left (Nat.le_succ h)]
      · simp only [longestFalseRun, segs, List.foldr_cons]
        rw [ih, Nat.zero_max]

theorem prefCounts_true (l : List Bool) :
    prefCounts (true :: l) = 1 :: (prefCounts l).map (fun x => x + 1) := by
  simp [prefCounts]

theorem prefCounts_false (l : List Bool) :
    prefCounts (false :: l) = 0 :: prefCounts l := by
  simp [prefCounts]

theorem count_zero_prefCounts : ∀ bs : List Bool,
    (prefCounts bs).count 0 = leadFalses bs := by
  intro bs
  induction bs with
  | nil => rfl
  | cons b l ih =>
      cases b
      · simp [prefCounts_false, List.count_cons, ih, leadFalses]
      · have hz : ((prefCounts l).map (fun x => x + 1)).count 0 = 0 := by
          rw [List.count_eq_zero]
          intro hmem
          obtain ⟨y, _, he⟩ := List.mem_map.mp hmem
          omega
        simp [prefCounts_true, List.count_cons, hz, leadFalses]

theorem zero_mem_prefCounts (bs : List Bool) :
    0 ∈ prefCounts bs ↔ leadFalses bs ≠ 0 := by
  constructor
  · intro h hc
    rw [← count_zero_prefCounts] at hc
    exact List.count_eq_zero.mp hc h
  · intro h
    by_contra hmem
    exact h (by rw [← count_zero_prefCounts bs]; exact List.count_eq_zero.mpr hmem)

theorem dedup_map_add_one : ∀ P : List ℕ,
    (P.map (fun x => x + 1)).dedup = P.dedup.map (fun x => x + 1) := by
  intro P
  induction P with
  | nil => rfl
  | cons x xs ih =>
      by_cases hx : x ∈ xs
      · have h1 : x + 1 ∈ xs.map (fun y => y + 1) := List.mem_map_of_mem _ hx
        rw [List.map_cons, List.dedup_cons_of_mem h1, List.dedup_cons_of_mem hx, ih]
      · have h1 : x + 1 ∉ xs.map (fun y => y + 1) := by
          intro hmem
          obtain ⟨y, hy, he⟩ := List.mem_map.mp hmem
          have : y = x := by omega
          exact hx (this ▸ hy)
        rw [List.map_cons, List.dedup_cons_of_not_mem h1,
          List.dedup_cons_of_not_mem hx, ih, List.map_cons]

theorem count_map_add_one (P : List ℕ) (g : ℕ) :
    (P.map (fun x => x + 1)).count (g + 1) = P.count g :=
  List.count_map_of_injective P (fun x => x + 1) (fun a b h => Nat.succ_injective h) g

theorem segs_eq_cons (bs : List Bool) :
    segs bs = leadFalses bs :: (segs bs).tail := by
  cases hs : segs bs with
  | nil => exact absurd hs (segs_ne_nil bs)
  | cons h t =>
      have hhead := segs_head bs
      rw [hs] at hhead
      simp only [List.head?_cons, Option.some.injEq] at hhead
      simp [hhead]

theorem count_prefCounts_false (l : List Bool) (g : ℕ) (hg : g ≠ 0) :
    (prefCounts (false :: l)).count g = (prefCounts l).count g := by
  have h0 : (0 : ℕ) ≠ g := Ne.symm hg
  rw [prefCounts_false, List.count_cons]
  simp [h0]

theorem count_prefCounts_true (l : List Bool) (g : ℕ) :
    (prefCounts (true :: l)).count (g + 1) =
      (prefCounts l).count g + (if g = 0 then 1 else 0) := by
  rw [prefCounts_true, List.count_cons, count_map_add_one]
  by_cases hg : g = 0
  · simp [hg]
  · have h1 : (1 : ℕ) ≠ g + 1 := by omega
    simp [hg, h1]

theorem cntPerm : ∀ bs : List Bool, bs ≠ [] →
    ((prefCounts bs).dedup.map
      (fun g => (prefCounts bs).count g - (if g = 0 then 0 else 1))).Perm
    (if leadFalses bs = 0 then (segs bs).tail else segs bs) := by
  intro bs
  induction bs with
  | nil => intro h; exact absurd rfl h
  | cons b l ih =>
      intro _
      cases b
      · -- bs = false :: l
        have hlfne : leadFalses (false :: l) ≠ 0 := by simp [leadFalses]
        rw [if_neg hlfne]
        cases l with
        | nil => decide
        | cons c l' =>
            have ihP := ih (List.cons_ne_nil c l')
            have hcnt0 : (prefCounts (false :: c :: l')).count 0 =
                leadFalses (c :: l') + 1 := by
              rw [count_zero_prefCounts]; rfl
            have hsegsF : segs (false :: c :: l') =
                (leadFalses (c :: l') + 1) :: (segs (c :: l')).tail := by
              cases hs : segs (c :: l') with
              | nil => exact absurd hs (segs_ne_nil _)
              | cons h t =>
                  have hh : h = leadFalses (c :: l') := by
                    have hhd := segs_head (c :: l')
                    rw [hs] at hhd
                    simpa using hhd
                  simp [segs, hs, hh]
            by_cases h0 : (0 : ℕ) ∈ prefCounts (c :: l')
            · -- 0 realised in the tail: group 0 grows by one
              have hlf' : leadFalses (c :: l') ≠ 0 := (zero_mem_prefCounts _).mp h0
              rw [if_neg hlf'] at ihP
              rw [prefCounts_false, List.dedup_cons_of_mem h0, ← prefCounts_false]
              have hd0 : (0 : ℕ) ∈ (prefCounts (c :: l')).dedup :=
                List.mem_dedup.mpr h0
              have hnd := List.nodup_dedup (prefCounts (c :: l'))
              have hsplit := List.perm_cons_erase hd0
              have h0notE : (0 : ℕ) ∉ (prefCounts (c :: l')).dedup.erase 0 := by
                intro hmem
                exact absurd rfl ((hnd.mem_erase_iff.mp hmem).1)
              have htail : ∀ g ∈ (prefCounts (c :: l')).dedup.erase 0,
                  (prefCounts (false :: c :: l')).count g - (if g = 0 then 0 else 1) =
                  (prefCounts (c :: l')).count g - (if g = 0 then 0 else 1) := by
                intro g hg
                have hgne : g ≠ 0 := (hnd.mem_erase_iff.mp hg).1
                rw [count_prefCounts_false (c :: l') g hgne]
              -- left-hand list permuted into head-plus-erased form
              have hL :
                  ((prefCounts (c :: l')).dedup.map
                    (fun g => (prefCounts (false :: c :: l')).count g -
                      (if g = 0 then 0 else 1))).Perm
                  ((leadFalses (c :: l') + 1) ::
                    (((prefCounts (c :: l')).dedup.erase 0).map
                      (fun g => (prefCounts (c :: l')).count g -
                        (if g = 0 then 0 else 1)))) := by
                have := hsplit.map
                  (fun g => (prefCounts (false :: c :: l')).count g -
                    (if g = 0 then 0 else 1))
                rw [List.map_cons] at this
                simp only [if_pos rfl, Nat.sub_zero] at this
                rw [hcnt0] at this
                rw [List.map_congr_left htail] at this
                exact this
              -- right-hand side via the induction hypothesis
              have hR :
                  ((leadFalses (c :: l')) ::
                    (((prefCounts (c :: l')).dedup.erase 0).map
                      (fun g => (prefCounts (c :: l')).count g -
                        (if g = 0 then 0 else 1)))).Perm (segs (c :: l')) := by
                have := (hsplit.map
                  (fun g => (prefCounts (c :: l')).count g -
                    (if g = 0 then 0 else 1))).symm.trans ihP
                rw [List.map_cons] at this
                simp only [if_pos rfl, Nat.sub_zero, count_zero_prefCounts] at this
                exact this
              rw [hsegsF]
              refine hL.trans ?_
              rw [segs_eq_cons (c :: l')] at hR
              exact (hR.cons_inv).cons (leadFalses (c :: l') + 1)
            · -- no leading falses in the tail: a fresh group 0 of size one
              have hlf' : leadFalses (c :: l') = 0 := by
                by_contra hne
                exact h0 ((zero_mem_prefCounts _).mpr hne)
              rw [if_pos hlf'] at ihP
              rw [prefCounts_false, List.dedup_cons_of_not_mem h0, ← prefCounts_false]
              rw [List.map_cons]
              have hd0 : (0 : ℕ) ∉ (prefCounts (c :: l')).dedup := by
                intro hmem
                exact h0 (List.mem_dedup.mp hmem)
              have htail : ∀ g ∈ (prefCounts (c :: l')).dedup,
                  (prefCounts (false :: c :: l')).count g - (if g = 0 then 0 else 1) =
                  (prefCounts (c :: l')).count g - (if g = 0 then 0 else 1) := by
                intro g hg
                have hgne : g ≠ 0 := fun hgz => hd0 (hgz ▸ hg)
                rw [count_prefCounts_false (c :: l') g hgne]
              rw [List.map_congr_left htail]
              simp only [if_pos rfl, Nat.sub_zero]
              rw [hcnt0, hlf', hsegsF, hlf']
              exact ihP.cons 1
      · -- bs = true :: l
        have hlf : leadFalses (true :: l) = 0 := rfl
        rw [if_pos hlf]
        have hsegsT : (segs (true :: l)).tail = segs l := by simp [segs]
        rw [hsegsT]
        cases l with
        | nil => decide
        | cons c l' =>
            have ihP := ih (List.cons_ne_nil c l')
            have hpc := prefCounts_true (c :: l')
            have hcntfun : ∀ g ∈ (prefCounts (c :: l')).dedup,
                (prefCounts (true :: c :: l')).count (g + 1) -
                  (if g + 1 = 0 then 0 else 1) =
                (prefCounts (c :: l')).count g - (if g = 0 then 0 else 1) := by
              intro g hg
              rw [count_prefCounts_true (c :: l') g]
              by_cases hgz : g = 0
              · subst hgz
                simp [count_zero_prefCounts]
              · simp [hgz]
            by_cases h0 : (0 : ℕ) ∈ prefCounts (c :: l')
            · have h1 : (1 : ℕ) ∈ (prefCounts (c :: l')).map (fun x => x + 1) :=
                List.mem_map.mpr ⟨0, h0, rfl⟩
              have hlf' : leadFalses (c :: l') ≠ 0 := (zero_mem_prefCounts _).mp h0
              rw [if_neg hlf'] at ihP
              rw [hpc, List.dedup_cons_of_mem h1, dedup_map_add_one, ← hpc,
                List.map_map]
              have hpt : ∀ g ∈ (prefCounts (c :: l')).dedup,
                  ((fun g => (prefCounts (true :: c :: l')).count g -
                    (if g = 0 then 0 else 1)) ∘ (fun x => x + 1)) g =
                  (prefCounts (c :: l')).count g - (if g = 0 then 0 else 1) := by
                intro g hg
                exact hcntfun g hg
              rw [List.map_congr_left hpt]
              exact ihP
            · have h1 : (1 : ℕ) ∉ (prefCounts (c :: l')).map (fun x => x + 1) := by
                intro hmem
                obtain ⟨y, hy, he⟩ := List.mem_map.mp hmem
                have : y = 0 := by omega
                exact h0 (this ▸ hy)
              have hlf' : leadFalses (c :: l') = 0 := by
                by_contra hne
                exact h0 ((zero_mem_prefCounts _).mpr hne)
              rw [if_pos hlf'] at ihP
              rw [hpc, List.dedup_cons_of_not_mem h1, dedup_map_add_one, ← hpc,
                List.map_cons, List.map_map]
              have hpt : ∀ g ∈ (prefCounts (c :: l')).dedup,
                  ((fun g => (prefCounts (true :: c :: l')).count g -
                    (if g = 0 then 0 else 1)) ∘ (fun x => x + 1)) g =
                  (prefCounts (c :: l')).count g - (if g = 0 then 0 else 1) := by
                intro g hg
                exact hcntfun g hg
              rw [List.map_congr_left hpt]
              have hhead : (prefCounts (true :: c :: l')).count 1 -
                  (if (1 : ℕ) = 0 then 0 else 1) = 0 := by
                have := count_prefCounts_true (c :: l') 0
                simp only [Nat.zero_add] at this
                rw [this]
                have hc0 : (prefCounts (c :: l')).count 0 = 0 := by
                  rw [count_zero_prefCounts]; exact hlf'
                simp [hc0]
              rw [hhead]
              rw [segs_eq_cons (c :: l'), hlf']
              exact ihP.cons 0

theorem sqlValB_eq (bs : List Bool) (hne : bs ≠ []) :
    sqlValB bs = some (longestFalseRun bs) := by
  unfold sqlValB
  rw [maxOf_perm (cntPerm bs hne)]
  by_cases hlf : leadFalses bs = 0
  · rw [if_pos hlf]
    have htne : (segs bs).tail ≠ [] := by
      cases bs with
      | nil => exact absurd rfl hne
      | cons b l =>
          cases b
          · exact absurd hlf (by simp [leadFalses])
          · simpa [segs] using segs_ne_nil l
    rw [maxOf_eq_foldr _ htne, longestFalseRun_eq_segs]
    have hfold : (segs bs).foldr max 0 = max 0 ((segs bs).tail.foldr max 0) := by
      conv_lhs => rw [segs_eq_cons bs, hlf]
      rw [List.foldr_cons]
    rw [hfold, Nat.zero_max]
  · rw [if_neg hlf, longestFalseRun_eq_segs, maxOf_eq_foldr _ (segs_ne_nil bs)]

theorem grpOfP_perm {ps ps' : List (ℤ × Bool)} (h : ps.Perm ps') (d : ℤ) :
    grpOfP ps d = grpOfP ps' d := by
  unfold grpOfP
  rw [← List.countP_eq_length_filter, ← List.countP_eq_length_filter]
  exact h.countP_eq _

theorem sqlValP_perm {ps ps' : List (ℤ × Bool)} (h : ps.Perm ps') :
    sqlValP ps = sqlValP ps' := by
  unfold sqlValP
  apply maxOf_perm
  have hfun : ∀ p ∈ ps', grpOfP ps p.1 = grpOfP ps' p.1 :=
    fun p _ => grpOfP_perm h p.1
  have hG : (ps.map (fun p => grpOfP ps p.1)).Perm
      (ps'.map (fun p => grpOfP ps' p.1)) := by
    have h1 := h.map (fun p => grpOfP ps p.1)
    rw [List.map_congr_left hfun] at h1
    exact h1
  refine (List.Perm.map _ hG.dedup).trans ?_
  rw [List.map_congr_left (fun g _ => by rw [hG.count_eq g])]

theorem grps_sorted : ∀ ps : List (ℤ × Bool),
    ps.Pairwise (fun a b => a.1 < b.1) →
    ps.map (fun p => grpOfP ps p.1) = prefCounts (ps.map (fun p => p.2)) := by
  intro ps
  induction ps with
  | nil => intro _; rfl
  | cons p rest ih =>
      intro hpw
      obtain ⟨hlt, hpw'⟩ := List.pairwise_cons.mp hpw
      have hrest := ih hpw'
      obtain ⟨pd, pb⟩ := p
      simp only [List.map_cons, prefCounts]
      congr 1
      · unfold grpOfP
        rw [List.filter_cons]
        have hrest0 : rest.filter (fun q => q.2 && decide (q.1 ≤ pd)) = [] := by
          rw [List.filter_eq_nil_iff]
          intro q hq
          simp only [Bool.and_eq_true, decide_eq_true_eq, not_and]
          intro _
          have hl := hlt q hq
          simp only at hl
          omega
        cases pb <;> simp [hrest0]
      · rw [← hrest, List.map_map]
        apply List.map_congr_left
        intro q hq
        unfold grpOfP
        rw [List.filter_cons]
        have hd : decide ((pd, pb).1 ≤ q.1) = true := by
          simp only [decide_eq_true_eq]
          have hl := hlt q hq
          simp only at hl
          omega
        cases pb <;> simp [hd, Function.comp]

theorem flatMap_eq_map {α β : Type} (l : List α) (f : α → List β) (g : α → β)
    (h : ∀ x ∈ l, f x = [g x]) : l.flatMap f = l.map g := by
  induction l with
  | nil => rfl
  | cons x xs ih =>
      rw [List.flatMap_cons, h x (List.mem_cons_self x xs), List.map_cons,
        ih (fun y hy => h y (List.mem_cons_of_mem x hy))]
      rfl

theorem sqlLeftJoin_eq_map (db : SqlDb)
    (hbrk : ∀ s ∈ db.shifts,
      (db.breaks.filter (fun b => b.shift_id == s.shift_id)).length ≤ 1) :
    App.sqlLeftJoin db = db.shifts.map (fun s =>
      (s, (db.breaks.filter (fun b => b.shift_id == s.shift_id)).head?)) := by
  unfold App.sqlLeftJoin
  apply flatMap_eq_map
  intro s hs
  have hlen := hbrk s hs
  cases hf : db.breaks.filter (fun b => b.shift_id == s.shift_id) with
  | nil => simp
  | cons b bs =>
      cases bs with
      | nil => simp
      | cons b2 bs2 => rw [hf] at hlen; simp at hlen

theorem isSome_head_filter (db : SqlDb) (s : SqlShift) :
    ((db.breaks.filter (fun b => b.shift_id == s.shift_id)).head?).isSome =
      hasBreakIn db.breaks s := by
  unfold hasBreakIn
  cases hf : db.breaks.filter (fun b => b.shift_id == s.shift_id) with
  | nil =>
      simp only [List.head?_nil, Option.isSome_none]
      symm
      exact List.any_eq_false.mpr (List.filter_eq_nil_iff.mp hf)
  | cons b bs =>
      simp only [List.head?_cons, Option.isSome_some]
      symm
      rw [List.any_eq_true]
      have hb := List.mem_filter.mp (hf ▸ List.mem_cons_self b bs)
      exact ⟨b, hb.1, hb.2⟩

theorem kpi4_eq_sqlValP (db : SqlDb)
    (hbrk : ∀ s ∈ db.shifts,
      (db.breaks.filter (fun b => b.shift_id == s.shift_id)).length ≤ 1) :
    App.kpi_max_break_free db =
      (sqlValP (shiftFlags db)).map (fun n => (n : ℚ)) := by
  have hgrp : ∀ s : SqlShift,
      App.grpOf (db.shifts.map (fun s' =>
        (s', (db.breaks.filter (fun b => b.shift_id == s'.shift_id)).head?)))
        (s, (db.breaks.filter (fun b => b.shift_id == s.shift_id)).head?) =
      grpOfP (db.shifts.map (fun s' =>
        (s'.shift_date, hasBreakIn db.breaks s'))) s.shift_date := by
    intro s
    unfold App.grpOf grpOfP
    rw [← List.countP_eq_length_filter, ← List.countP_eq_length_filter,
      List.countP_map, List.countP_map]
    apply List.countP_congr
    intro s' _
    dsimp only [Function.comp]
    rw [isSome_head_filter db s']
  have hgrps : (App.sqlLeftJoin db).map (App.grpOf (App.sqlLeftJoin db)) =
      (shiftFlags db).map (fun p => grpOfP (shiftFlags db) p.1) := by
    rw [sqlLeftJoin_eq_map db hbrk]
    unfold shiftFlags
    rw [List.map_map, List.map_map]
    apply List.map_congr_left
    intro s _
    dsimp only [Function.comp]
    exact hgrp s
  simp only [App.kpi_max_break_free, sqlValP]
  rw [hgrps]

/-- C7 counterexample: two shifts — the earlier one carrying two breaks,
the later one break-free — give the SQL value 2 (each break contributes
a join row and the window's RANGE frame counts both as peers) while the
longest run of consecutive break-free shifts has length 1. -/
theorem C7_counterexample :
    App.kpi_max_break_free
      ⟨[⟨"s1", 1, none, none, 0⟩, ⟨"s2", 2, none, none, 0⟩],
       [⟨"b1", "s1", none, none, false⟩, ⟨"b2", "s1", none, none, false⟩],
       [], [], []⟩ = some ((2 : ℕ) : ℚ) ∧
    claimedMaxBreakFree
      ⟨[⟨"s1", 1, none, none, 0⟩, ⟨"s2", 2, none, none, 0⟩],
       [⟨"b1", "s1", none, none, false⟩, ⟨"b2", "s1", none, none, false⟩],
       [], [], []⟩ = 1 ∧
    some (((2 : ℕ) : ℚ)) ≠ some (((1 : ℕ) : ℚ)) := by
  refine ⟨by decide, by decide, by decide⟩

/-- C7 (amended): for every persisted dataset with at least one shift,
pairwise-distinct shift dates, and at most one break per shift, the KPI
`max_break_free_shift_period_in_days` equals the length of the longest
run of consecutive (by date ordering) shifts having no associated break
— the grouping by running break count makes each break-led group one
longer than its trailing break-free run, and the leading group is
exactly the leading break-free run. -/
theorem C7_max_break_free (db : SqlDb)
    (hne : db.shifts ≠ [])
    (hdates : (db.shifts.map (fun s => s.shift_date)).Nodup)
    (hbrk : ∀ s ∈ db.shifts,
      (db.breaks.filter (fun b => b.shift_id == s.shift_id)).length ≤ 1) :
    App.kpi_max_break_free db = some ((claimedMaxBreakFree db : ℚ)) := by
  rw [kpi4_eq_sqlValP db hbrk]
  have hperm : (sortByDate db.shifts).Perm db.shifts :=
    List.perm_insertionSort _ _
  have hpairs :
      (((sortByDate db.shifts).map
        (fun s => (s.shift_date, hasBreakIn db.breaks s)))).Perm
      (shiftFlags db) := hperm.map _
  rw [← sqlValP_perm hpairs]
  have hsorted : (sortByDate db.shifts).Pairwise
      (fun a b => a.shift_date ≤ b.shift_date) :=
    List.sorted_insertionSort _ _
  have hnodup : ((sortByDate db.shifts).map (fun s => s.shift_date)).Nodup :=
    (List.Perm.nodup_iff (hperm.map _)).mpr hdates
  have hstrict : (((sortByDate db.shifts).map
      (fun s => (s.shift_date, hasBreakIn db.breaks s)))).Pairwise
      (fun a b => a.1 < b.1) := by
    rw [List.pairwise_map]
    have hneq : (sortByDate db.shifts).Pairwise
        (fun a b => a.shift_date ≠ b.shift_date) :=
      List.pairwise_map.mp hnodup
    exact (hsorted.and hneq).imp (fun h => lt_of_le_of_ne h.1 h.2)
  have hred : sqlValP ((sortByDate db.shifts).map
      (fun s => (s.shift_date, hasBreakIn db.breaks s))) =
      sqlValB (((sortByDate db.shifts).map
        (fun s => (s.shift_date, hasBreakIn db.breaks s))).map
        (fun p => p.2)) := by
    simp only [sqlValP, sqlValB]
    rw [grps_sorted _ hstrict]
  rw [hred, List.map_map]
  have hbne : (sortByDate db.shifts).map
      ((fun p : ℤ × Bool => p.2) ∘ (fun s => (s.shift_date, hasBreakIn db.breaks s))) ≠ [] := by
    rw [ne_eq, List.map_eq_nil_iff]
    intro hc
    exact hne ((hc ▸ hperm).symm.eq_nil)
  rw [sqlValB_eq _ hbne]
  rfl

/-- C7 witness: three shifts on distinct dates with a single break on
the middle one satisfy the amended hypotheses, and the KPI equals the
longest break-free run. -/
theorem C7_max_break_free_witness :
    (([⟨"s1", 1, none, none, 0⟩, ⟨"s2", 2, none, none, 0⟩,
       ⟨"s3", 3, none, none, 0⟩] : List SqlShift) ≠ []) ∧
    ((([⟨"s1", 1, none, none, 0⟩, ⟨"s2", 2, none, none, 0⟩,
        ⟨"s3", 3, none, none, 0⟩] : List SqlShift).map
        (fun s => s.shift_date)).Nodup) ∧
    App.kpi_max_break_free
      ⟨[⟨"s1", 1, none, none, 0⟩, ⟨"s2", 2, none, none, 0⟩,
        ⟨"s3", 3, none, none, 0⟩],
       [⟨"b1", "s2", none, none, true⟩], [], [], []⟩ =
      some ((claimedMaxBreakFree
        ⟨[⟨"s1", 1, none, none, 0⟩, ⟨"s2", 2, none, none, 0⟩,
          ⟨"s3", 3, none, none, 0⟩],
         [⟨"b1", "s2", none, none, true⟩], [], [], []⟩ : ℚ)) :=
  ⟨by decide, by decide,
   C7_max_break_free
     ⟨[⟨"s1", 1, none, none, 0⟩, ⟨"s2", 2, none, none, 0⟩,
       ⟨"s3", 3, none, none, 0⟩],
      [⟨"b1", "s2", none, none, true⟩], [], [], []⟩
     (by decide) (by decide) (by decide)⟩
